import Mathlib

/-!
# eldr: a manual ELF loader (src/elf.c, src/reloc.c, src/main.c)

A shallow embedding of the loader.  Process memory is a total map from byte
addresses to bytes; multi-byte fields are little-endian (x86-64).  Pointer
arithmetic on values taken from the file wraps modulo 2^64.  Answers of the
kernel, of libc and of the host dynamic linker are fields of `Host`.
The loader's observable actions are appended to a log carried in `State`.

Conventions: a pointer is a natural number and `NULL` is 0; a lookup that returns the address
of an entry it has just read returns an `Option` (`none` for `NULL`); loop counters are natural
numbers (overflow of an `int` counter is not modelled); a read through the null aggregate is
recorded as `Event.fault`.
-/

namespace Eldr

/-! ## Machine words and memory -/

/-- Number of values of a 64-bit word. -/
def U64 : Nat := 18446744073709551616

/-- Pointer arithmetic: addresses wrap at 2^64. -/
def padd (p off : Nat) : Nat := (p + off) % U64

/-- Process memory: the byte stored at each address. -/
abbrev Mem := Nat → Nat

def load8 (m : Mem) (a : Nat) : Nat := m a % 256

def load16 (m : Mem) (a : Nat) : Nat := load8 m a + 256 * load8 m (a + 1)

def load32 (m : Mem) (a : Nat) : Nat := load16 m a + 65536 * load16 m (a + 2)

def load64 (m : Mem) (a : Nat) : Nat := load32 m a + 4294967296 * load32 m (a + 4)

/-- Store of a 64-bit word: byte `k` of the value goes to address `a + k`. -/
def store64 (m : Mem) (a v : Nat) : Mem :=
  fun x => if a ≤ x ∧ x < a + 8 then (v / 256 ^ (x - a)) % 256 else m x

/-- Signed reading of a 64-bit word (two's complement). -/
def toSigned64 (v : Nat) : Int :=
  if v % U64 < 9223372036854775808 then (v % U64 : Nat) else ((v % U64 : Nat) : Int) - 18446744073709551616

/-- Conversion of a 64-bit value to `int` (low 32 bits, two's complement). -/
def toInt32 (v : Nat) : Int :=
  if v % 4294967296 < 2147483648 then (v % 4294967296 : Nat) else ((v % 4294967296 : Nat) : Int) - 4294967296

/-- Conversion of a signed integer to `size_t` / `uintptr_t`. -/
def toU64 (i : Int) : Nat := (i % 18446744073709551616).toNat

/-! ## C strings -/

/-- What a `const char *` points to: the byte at each index from the pointer. -/
abbrev CStr := Nat → Nat

/-- A string literal: its characters followed by NUL bytes. -/
def CStr.lit (l : List Nat) : CStr := fun k => l.getD k 0

/-- The bytes read from memory through the pointer `p`. -/
def CStr.ofMem (m : Mem) (p : Nat) : CStr := fun k => load8 m (p + k)

/-- ASCII codes of a string literal of the source. -/
def chars (s : String) : List Nat := s.toList.map Char.toNat

/-- The C string read through `s` is `q`: the bytes of `q`, none of them NUL, then a NUL. -/
def CStr.spells (s : CStr) (q : List Nat) : Prop :=
  (∀ k, k < q.length → s k = q.getD k 0 ∧ s k ≠ 0) ∧ s q.length = 0

/-- Length of a string literal (the literals of the source hold no NUL). -/
def strlen (l : List Nat) : Nat := l.length

/-- The libc `strncmp`: compare at most `n` bytes, stopping after a NUL. -/
def strncmp (s1 s2 : CStr) : Nat → Int
  | 0 => 0
  | n + 1 =>
    if s1 0 ≠ s2 0 then (s1 0 : Int) - (s2 0 : Int)
    else if s1 0 = 0 then 0
    else strncmp (fun k => s1 (k + 1)) (fun k => s2 (k + 1)) n

/-! ## Constants of <elf.h> and <sys/mman.h> -/

def ELF_BASE_ADDR_VAL : Nat := 0x10000000

def R_X86_64_COPY : Nat := 5
def R_X86_64_GLOB_DAT : Nat := 6
def R_X86_64_JUMP_SLOT : Nat := 7
def R_X86_64_RELATIVE : Nat := 8

def ELF64_R_SYM (i : Nat) : Nat := i >>> 32
def ELF64_R_TYPE (i : Nat) : Nat := i &&& 0xffffffff

def EI_MAG0 : Nat := 0
def EI_MAG1 : Nat := 1
def EI_MAG2 : Nat := 2
def EI_MAG3 : Nat := 3
def ELFMAG0 : Nat := 0x7f
def ELFMAG1 : Nat := 69
def ELFMAG2 : Nat := 76
def ELFMAG3 : Nat := 70

def PT_LOAD : Nat := 1
def PT_DYNAMIC : Nat := 2

def DT_NULL : Nat := 0
def DT_PLTRELSZ : Nat := 2
def DT_STRTAB : Nat := 5
def DT_SYMTAB : Nat := 6
def DT_RELA : Nat := 7
def DT_RELASZ : Nat := 8
def DT_REL : Nat := 17
def DT_RELSZ : Nat := 18

def PF_X : Nat := 1
def PF_W : Nat := 2
def PF_R : Nat := 4

def PROT_READ : Nat := 1
def PROT_WRITE : Nat := 2
def PROT_EXEC : Nat := 4

def MAP_FILE : Nat := 0
def MAP_PRIVATE : Nat := 2
def MAP_FIXED : Nat := 0x10

/-- The value `(void *) -1`. -/
def MAP_FAILED : Nat := 18446744073709551615

/-- The value `~0xfff` converted to `uintptr_t`. -/
def NOT_0xfff : Nat := 0xfffffffffffff000

def sizeof_Elf64_Rela : Nat := 24
def sizeof_Elf64_Sym : Nat := 24
def sizeof_Elf64_Dyn : Nat := 16
def sizeof_Elf64_Phdr : Nat := 56

/-! ## The host process -/

/-- Answers of the host: libc objects, the dynamic linker, the kernel. -/
structure Host where
  /-- the stream handles of the host's libc -/
  stdin : Nat
  stdout : Nat
  stderr : Nat
  /-- address of `__libc_start_main_impl` -/
  libc_start_main_impl : Nat
  /-- the call `dlsym(RTLD_DEFAULT, name)` -/
  dlsym : CStr → Nat
  /-- return value of `access(pathname, F_OK)` -/
  access_ret : Int
  /-- return value of `open(pathname, O_RDONLY)` -/
  open_ret : Int
  /-- whether `malloc(sizeof(elf_t))` returns a non-null pointer -/
  malloc_ok : Bool
  /-- return value of `stat(pathname, &st_stat)` and the `st_size` it reports -/
  stat_ret : Int
  st_size : Nat
  /-- the byte of the file at each offset (zero past its end) -/
  file : Nat → Nat
  /-- return value of `mmap(addr, len, prot, flags, fd, off)` -/
  mmap : Nat → Nat → Nat → Nat → Int → Nat → Nat

/-- The stream handles and the shim are live objects: their addresses are not null. -/
def Host.nonnull (h : Host) : Prop :=
  0 < h.stdin ∧ 0 < h.stdout ∧ 0 < h.stderr ∧ 0 < h.libc_start_main_impl

/-- Pointers of the host are 64-bit values. -/
def Host.word64 (h : Host) : Prop :=
  h.stdin < U64 ∧ h.stdout < U64 ∧ h.stderr < U64 ∧ h.libc_start_main_impl < U64 ∧
  ∀ s, h.dlsym s < U64

/-! ## Observable actions -/

inductive Event where
  | opened (fd : Int)
  | closed (fd : Int)
  | fault
  | scratch (len : Nat) (fd : Int) (ret : Nat)
  | mapped (addr len prot flags : Nat) (fd : Int) (off : Nat)
  | handled (entry : Nat)
  | write (addr val : Nat)
  | jump (addr : Nat)
  deriving DecidableEq

structure State where
  mem : Mem
  log : List Event

def State.emit (st : State) (e : Event) : State := { st with log := st.log ++ [e] }

/-- A 64-bit store through a `uintptr_t *`. -/
def State.store (st : State) (a v : Nat) : State :=
  { mem := store64 st.mem a v, log := st.log ++ [Event.write a (v % U64)] }

/-- Memory after a file mapping is installed at `addr`: whole pages covering `len` bytes
show the file from offset `off`. -/
def install (m : Mem) (file : Nat → Nat) (addr len off : Nat) : Mem :=
  fun x => if addr ≤ x ∧ x < addr + (len + 4095) / 4096 * 4096 then file (off + (x - addr)) else m x

/-- A call of `mmap`: the kernel's answer, and the mapping installed unless it is `MAP_FAILED`. -/
def State.mmap (st : State) (h : Host) (addr len prot flags : Nat) (fd : Int) (off : Nat) :
    Nat × State :=
  let ret := h.mmap addr len prot flags fd off
  if ret = MAP_FAILED then (ret, st)
  else (ret, { st with mem := install st.mem h.file ret len off })

/-- The loop `for (int i = 0; i < n; ++i) if (p i) return i;` started at index `i` with
`k` iterations left. -/
def first_from (p : Nat → Bool) (i : Nat) : Nat → Option Nat
  | 0 => none
  | k + 1 => if p i then some i else first_from p (i + 1) k

/-- First index below `n` at which `p` holds. -/
def first_index (p : Nat → Bool) (n : Nat) : Option Nat := first_from p 0 n

/-! ## reloc.c -/

structure reloc_sym_t where
  symbol : List Nat
  ptr : Nat

/-- The table `symbols[]` as initialised statically. -/
def symbols_static (h : Host) : List reloc_sym_t :=
  [⟨chars "stdin", 0⟩, ⟨chars "stdout", 0⟩, ⟨chars "stderr", 0⟩,
   ⟨chars "__libc_start_main", h.libc_start_main_impl⟩]

/-- The table after `symbols[0].ptr = stdin, symbols[1].ptr = stdout; symbols[2].ptr = stderr;`. -/
def symbols (h : Host) : List reloc_sym_t :=
  match symbols_static h with
  | [e0, e1, e2, e3] =>
    [{ e0 with ptr := h.stdin }, { e1 with ptr := h.stdout }, { e2 with ptr := h.stderr }, e3]
  | t => t

/-- Scan of `resolve_reloc_symbol` over a table: first entry whose comparison gives 0. -/
def resolve_in (table : List reloc_sym_t) (symbol : CStr) : Nat :=
  match table with
  | [] => 0
  | e :: rest =>
    if strncmp (CStr.lit e.symbol) symbol (strlen e.symbol) = 0 then e.ptr
    else resolve_in rest symbol

def resolve_reloc_symbol (h : Host) (symbol : CStr) : Nat :=
  resolve_in (symbols h) symbol

structure Elf64_Rela where
  r_offset : Nat
  r_info : Nat
  r_addend : Int

/-- The entry stored at address `p`. -/
def Elf64_Rela.read (m : Mem) (p : Nat) : Elf64_Rela :=
  { r_offset := load64 m p, r_info := load64 m (padd p 8),
    r_addend := toSigned64 (load64 m (padd p 16)) }

def apply_relocation (st : State) (relocation : Elf64_Rela) (ptr : Nat) (address : Nat) : State :=
  let t := ELF64_R_TYPE relocation.r_info
  if t = R_X86_64_RELATIVE then
    st.store address (load64 st.mem address + toU64 ((ELF_BASE_ADDR_VAL : Int) + relocation.r_addend))
  else if t = R_X86_64_COPY then st.store address ptr
  else if t = R_X86_64_GLOB_DAT then st.store address ptr
  else if t = R_X86_64_JUMP_SLOT then
    (if ptr ≠ 0 then st.store address ptr else st.store address 0)
  else st

structure elf_t where
  fd : Int
  header : Nat
  program_header_table : Nat
  relocations : Nat
  dynamic_section : Nat
  dynamic_syms : Nat
  size : Nat
  dynamic_section_size : Nat
  memory : Nat
  dynamic_strtab : Nat
  deriving DecidableEq

/-- Address `(uintptr_t *)((char *)relocations[i].r_offset + ELF_BASE_ADDR_VAL)`. -/
def reloc_address (r : Elf64_Rela) : Nat := padd r.r_offset ELF_BASE_ADDR_VAL

/-- Pointer `dynamic_strtab + (dynamic_syms + ELF64_R_SYM(r_info))->st_name`. -/
def reloc_symbol_name (m : Mem) (binary : elf_t) (r : Elf64_Rela) : Nat :=
  padd binary.dynamic_strtab
    (load32 m (padd binary.dynamic_syms (sizeof_Elf64_Sym * ELF64_R_SYM r.r_info)))

/-- The pointer handed to `apply_relocation`: the local table first, `dlsym` on a miss. -/
def reloc_symbol_ptr (h : Host) (symbol_name : CStr) : Nat :=
  let symbol_ptr := resolve_reloc_symbol h symbol_name
  if symbol_ptr = 0 then h.dlsym symbol_name else symbol_ptr

/-- One iteration of the loop of `relocate_data`, on the entry at address `entry`. -/
def relocate_entry (h : Host) (binary : elf_t) (st : State) (entry : Nat) : State :=
  let r := Elf64_Rela.read st.mem entry
  let address := reloc_address r
  let symbol_name := reloc_symbol_name st.mem binary r
  let st1 := st.emit (Event.handled entry)
  if load8 st.mem symbol_name = 0 then st1
  else
    apply_relocation st1 r (reloc_symbol_ptr h (CStr.ofMem st.mem symbol_name)) address

/-- Number of iterations of the loop: `size / sizeof(Elf64_Rela)` with `size` converted to `size_t`. -/
def reloc_count (size : Int) : Nat := toU64 size / sizeof_Elf64_Rela

def relocate_data (h : Host) (binary : elf_t) (size : Int) (pltrel : Bool) (st : State) : State :=
  let relocations :=
    if pltrel then padd binary.relocations (sizeof_Elf64_Rela * reloc_count size)
    else binary.relocations
  (List.range (reloc_count size)).foldl
    (fun s i => relocate_entry h binary s (padd relocations (sizeof_Elf64_Rela * i))) st

/-! ## elf.c -/

/-- Fields of the `Elf64_Ehdr` at address `hdr`. -/
def e_ident (m : Mem) (hdr i : Nat) : Nat := load8 m (padd hdr i)
def e_entry (m : Mem) (hdr : Nat) : Nat := load64 m (padd hdr 24)
def e_phoff (m : Mem) (hdr : Nat) : Nat := load64 m (padd hdr 32)
def e_phnum (m : Mem) (hdr : Nat) : Nat := load16 m (padd hdr 56)

/-- Fields of the `Elf64_Phdr` at address `p`. -/
def p_type (m : Mem) (p : Nat) : Nat := load32 m p
def p_flags (m : Mem) (p : Nat) : Nat := load32 m (padd p 4)
def p_offset (m : Mem) (p : Nat) : Nat := load64 m (padd p 8)
def p_vaddr (m : Mem) (p : Nat) : Nat := load64 m (padd p 16)
def p_filesz (m : Mem) (p : Nat) : Nat := load64 m (padd p 32)
def p_memsz (m : Mem) (p : Nat) : Nat := load64 m (padd p 40)

/-- Fields of the `Elf64_Dyn` at address `p` (the tag as its 64-bit pattern). -/
def d_tag (m : Mem) (p : Nat) : Nat := load64 m p
def d_un (m : Mem) (p : Nat) : Nat := load64 m (padd p 8)

/-- The call `close(binary->fd); free(binary); return NULL;`.  Through a null `binary`
the read of `fd` faults and nothing is closed. -/
def free_elf (binary : Option elf_t) (st : State) : State :=
  match binary with
  | some b => st.emit (Event.closed b.fd)
  | none => st.emit Event.fault

def return_elf_size (h : Host) : Nat :=
  if h.stat_ret < 0 then 0 else h.st_size

def check_elf_header (m : Mem) (ident : Nat) : Bool :=
  e_ident m ident EI_MAG0 = ELFMAG0 && e_ident m ident EI_MAG1 = ELFMAG1
    && e_ident m ident EI_MAG2 = ELFMAG2 && e_ident m ident EI_MAG3 = ELFMAG3

/-- Address of `binary->program_header_table[i]`. -/
def phdr_entry (binary : elf_t) (i : Nat) : Nat :=
  padd binary.program_header_table (sizeof_Elf64_Phdr * i)

/-- The loop of `resolve_elf_dyn` over the array at `dynamic_section`:
address of the entry found, or `none` for `NULL`. -/
def dyn_scan (m : Mem) (dynamic_section dynamic_section_size type : Nat) : Option Nat :=
  (first_index
    (fun i => decide (d_tag m (padd dynamic_section (sizeof_Elf64_Dyn * i)) ≠ DT_NULL)
      && decide (d_tag m (padd dynamic_section (sizeof_Elf64_Dyn * i)) = type))
    (dynamic_section_size / sizeof_Elf64_Dyn)).map
    (fun i => padd dynamic_section (sizeof_Elf64_Dyn * i))

def resolve_elf_dyn (m : Mem) (binary : elf_t) (type : Nat) : Option Nat :=
  dyn_scan m binary.dynamic_section binary.dynamic_section_size type

/-- The loop of `resolve_elf_phdr` over the `e_phnum` headers at `program_header_table`:
address of the header found, or `none` for `NULL`. -/
def phdr_scan (m : Mem) (program_header_table e_phnum type : Nat) : Option Nat :=
  (first_index
    (fun i => decide (p_type m (padd program_header_table (sizeof_Elf64_Phdr * i)) = type))
    e_phnum).map (fun i => padd program_header_table (sizeof_Elf64_Phdr * i))

def resolve_elf_phdr (m : Mem) (binary : elf_t) (type : Nat) : Option Nat :=
  phdr_scan m binary.program_header_table (e_phnum m binary.header) type

/-- The aggregate right after `malloc`: only `fd`, `size`, `memory` are set so far. -/
def elf_t.fresh (fd : Int) (size memory : Nat) : elf_t :=
  { fd := fd, header := 0, program_header_table := 0, relocations := 0, dynamic_section := 0,
    dynamic_syms := 0, size := size, dynamic_section_size := 0, memory := memory,
    dynamic_strtab := 0 }

/-- The whole-file mapping of `parse_elf`:
`mmap(NULL, size, PROT_READ | PROT_WRITE | PROT_EXEC, MAP_PRIVATE, binfd, 0)`. -/
def map_file (h : Host) (st : State) : Nat × State :=
  let r := st.mmap h 0 (return_elf_size h) (PROT_READ ||| PROT_WRITE ||| PROT_EXEC) MAP_PRIVATE
    h.open_ret 0
  (r.1, r.2.emit (Event.scratch (return_elf_size h) h.open_ret r.1))

/-- The part of `parse_elf` after the mapping check, on the aggregate `b0`. -/
def parse_elf_image (b0 : elf_t) (st : State) : Option elf_t × State :=
  let m := st.mem
  let b1 := { b0 with header := b0.memory }
  if ¬ check_elf_header m b1.header then (none, free_elf (some b1) st)
  else if e_phoff m b1.header = 0 then (none, free_elf (some b1) st)
  else
    let b2 := { b1 with program_header_table := padd b1.memory (e_phoff m b1.header) }
    match resolve_elf_phdr m b2 PT_DYNAMIC with
    | none => (none, free_elf (some b2) st)
    | some phdr_dynamic =>
      let b3 := { b2 with dynamic_section := padd b2.memory (p_offset m phdr_dynamic),
                          dynamic_section_size := p_memsz m phdr_dynamic }
      match resolve_elf_dyn m b3 DT_STRTAB, resolve_elf_dyn m b3 DT_SYMTAB with
      | some dyn_dtstrtab, some dyn_dtsymtab =>
        let b4 := { b3 with dynamic_strtab := padd b3.memory (d_un m dyn_dtstrtab),
                            dynamic_syms := padd b3.memory (d_un m dyn_dtsymtab) }
        match (resolve_elf_dyn m b4 DT_REL).orElse (fun _ => resolve_elf_dyn m b4 DT_RELA) with
        | none => (none, free_elf (some b4) st)
        | some dyn_rel =>
          (some { b4 with relocations := padd (d_un m dyn_rel) ELF_BASE_ADDR_VAL }, st)
      | _, _ => (none, free_elf (some b3) st)

def parse_elf (h : Host) (st : State) : Option elf_t × State :=
  if h.access_ret = -1 then (none, st)
  else if h.open_ret < 0 then (none, st)
  else
    let st1 := st.emit (Event.opened h.open_ret)
    if ¬ h.malloc_ok then (none, free_elf none st1)
    else
      let r := map_file h st1
      let b0 := elf_t.fresh h.open_ret (return_elf_size h) r.1
      if r.1 = 0 then (none, free_elf (some b0) r.2)
      else parse_elf_image b0 r.2

/-- The protections assembled from `p_flags`. -/
def segment_protections (flags : Nat) : Nat :=
  let protections := 0
  let protections := if flags &&& PF_X ≠ 0 then protections ||| PROT_EXEC else protections
  let protections := if flags &&& PF_W ≠ 0 then protections ||| PROT_WRITE else protections
  let protections := if flags &&& PF_R ≠ 0 then protections ||| PROT_READ else protections
  protections

/-- The value `segment->p_vaddr + ELF_BASE_ADDR_VAL`. -/
def segment_address (m : Mem) (segment : Nat) : Nat := padd (p_vaddr m segment) ELF_BASE_ADDR_VAL

/-- Returns the pointer (0 for `NULL`) and the state after the call. -/
def elf_map_segment (h : Host) (fd : Int) (segment : Nat) (st : State) : Nat × State :=
  let m := st.mem
  let address := segment_address m segment
  let protections := segment_protections (p_flags m segment)
  let addr := address &&& NOT_0xfff
  let len := (padd (p_filesz m segment) address) &&& NOT_0xfff
  let flags := MAP_FILE ||| MAP_PRIVATE ||| MAP_FIXED
  let off := (p_offset m segment + U64 - (address &&& 0xfff)) % U64
  let r := (st.emit (Event.mapped addr len protections flags fd off)).mmap h addr len protections
    flags fd off
  if r.1 = MAP_FAILED then (0, r.2) else (address &&& NOT_0xfff, r.2)

/-- The loop of `elf_manual_map` over the program headers, from index `i`; `e_phnum` is
a 16-bit field, so 65536 iterations exhaust it.  `false`: a mapping failed. -/
def map_segments (h : Host) (binary : elf_t) : Nat → Nat → State → Bool × State
  | 0, _, st => (true, st)
  | fuel + 1, i, st =>
    if i < e_phnum st.mem binary.header then
      if p_type st.mem (phdr_entry binary i) = PT_LOAD then
        let r := elf_map_segment h binary.fd (phdr_entry binary i) st
        if r.1 = 0 then (false, r.2) else map_segments h binary fuel (i + 1) r.2
      else map_segments h binary fuel (i + 1) st
    else (true, st)

def elf_manual_map (h : Host) (st : State) : State :=
  match parse_elf h st with
  | (none, st1) => st1
  | (some binary, st1) =>
    match map_segments h binary 65536 0 st1 with
    | (false, st2) => free_elf (some binary) st2
    | (true, st2) =>
      let _dyn_pltrelsz := resolve_elf_dyn st2.mem binary DT_PLTRELSZ
      match (resolve_elf_dyn st2.mem binary DT_RELSZ).orElse
          (fun _ => resolve_elf_dyn st2.mem binary DT_RELASZ) with
      | none => free_elf (some binary) st2
      | some dyn_relsz =>
        let st3 := relocate_data h binary (toInt32 (d_un st2.mem dyn_relsz)) false st2
        let st4 := relocate_data h binary (toInt32 (d_un st3.mem dyn_relsz)) true st3
        let elf_main := padd (e_entry st4.mem binary.header) ELF_BASE_ADDR_VAL
        (free_elf (some binary) st4).emit (Event.jump elf_main)

/-! ## main.c and the `__libc_start_main` shim of reloc.c -/

/-- The process as main.c sees it: the variables `cmdline_argc` and `cmdline_argv`, what
was written to the standard error stream, and the loader's state.  An argument vector is the
list of its strings up to the terminating null pointer. -/
structure Process where
  cmdline_argc : Int
  cmdline_argv : List String
  stderr : List String
  st : State

def EXIT_SUCCESS : Int := 0

/-- The call `elf_manual_map(argv[1])` made in a process; `h` holds the host's answers for
that path. -/
def run_loader (h : Host) (p : Process) : Process := { p with st := elf_manual_map h p.st }

/-- Returns the status and the process at the point where `main` returns. -/
def main (h : Host) (argc : Int) (argv : List String) (p : Process) : Int × Process :=
  let p1 := { p with stderr := p.stderr ++ ["Usage: " ++ argv.headD "" ++ " <elf> <args>\n\n"] }
  if argc < 2 then (EXIT_SUCCESS, p1)
  else
    let p2 := { p1 with cmdline_argc := argc - 1, cmdline_argv := argv.drop 1 }
    (EXIT_SUCCESS, run_loader h p2)

/-- End of the process through `exit(status)`. -/
structure Exit where
  status : Int
  deriving DecidableEq

set_option linter.unusedVariables false in
/-- The guest's entry is a function of `(argc, argv, envp)`; a null `envp` is `none`.
The shim overwrites its own `argc`, `argv` with the process-wide pair. -/
def __libc_start_main_impl (p : Process)
    (entry : Int → List String → Option (List String) → Int) (argc : Int) (argv : List String) :
    Exit :=
  let argc := p.cmdline_argc
  let argv := p.cmdline_argv
  { status := entry argc argv none }

/-! ## The specification's wording -/

/-- The dynamic array of `n` entries at `dyn` has an entry with tag `tag`. -/
def dyn_contains (m : Mem) (dyn n tag : Nat) : Prop :=
  ∃ j, j < n ∧ d_tag m (padd dyn (16 * j)) = tag

/-- The acceptance condition in the specification's words, on the image mapped at `image`:
valid magic, `e_phoff ≠ 0`, a `PT_DYNAMIC` header among the `e_phnum` headers (the first one
gives the dynamic array), `DT_STRTAB` and `DT_SYMTAB` present, `DT_REL` or `DT_RELA` present. -/
def spec_parse_ok (m : Mem) (image : Nat) : Prop :=
  e_ident m image 0 = 0x7f ∧ e_ident m image 1 = 69 ∧ e_ident m image 2 = 76 ∧
  e_ident m image 3 = 70 ∧
  e_phoff m image ≠ 0 ∧
  ∃ i, i < e_phnum m image ∧
    p_type m (padd (padd image (e_phoff m image)) (56 * i)) = PT_DYNAMIC ∧
    (∀ j, j < i → p_type m (padd (padd image (e_phoff m image)) (56 * j)) ≠ PT_DYNAMIC) ∧
    dyn_contains m (padd image (p_offset m (padd (padd image (e_phoff m image)) (56 * i))))
      (p_memsz m (padd (padd image (e_phoff m image)) (56 * i)) / 16) DT_STRTAB ∧
    dyn_contains m (padd image (p_offset m (padd (padd image (e_phoff m image)) (56 * i))))
      (p_memsz m (padd (padd image (e_phoff m image)) (56 * i)) / 16) DT_SYMTAB ∧
    (dyn_contains m (padd image (p_offset m (padd (padd image (e_phoff m image)) (56 * i))))
      (p_memsz m (padd (padd image (e_phoff m image)) (56 * i)) / 16) DT_REL ∨
     dyn_contains m (padd image (p_offset m (padd (padd image (e_phoff m image)) (56 * i))))
      (p_memsz m (padd (padd image (e_phoff m image)) (56 * i)) / 16) DT_RELA)

/-- Offsets, in a file image, of `e_ident[EI_CLASS]`, `e_ident[EI_DATA]`,
`e_ident[EI_VERSION]` and of the bytes of `e_type` and `e_machine`. -/
def ident_offsets : List Nat := [4, 5, 6, 16, 17, 18, 19]

/-- The address `x` is none of those bytes of the image mapped at `image`. -/
def off_ident (image x : Nat) : Prop := ∀ d ∈ ident_offsets, x ≠ image + d

/-- No `p_type`, `p_offset` or `p_memsz` field of the `e_phnum` program headers, and no `d_tag`
of the dynamic array of a PT_DYNAMIC header, shares a byte with those bytes of the image. -/
def reads_off_ident (m : Mem) (image : Nat) : Prop :=
  ∀ i, i < e_phnum m image →
    (∀ k, k < 4 → off_ident image (padd (padd image (e_phoff m image)) (56 * i) + k)) ∧
    (∀ k, k < 8 → off_ident image (padd (padd (padd image (e_phoff m image)) (56 * i)) 8 + k)) ∧
    (∀ k, k < 8 → off_ident image (padd (padd (padd image (e_phoff m image)) (56 * i)) 40 + k)) ∧
    (p_type m (padd (padd image (e_phoff m image)) (56 * i)) = PT_DYNAMIC →
      ∀ j, j < p_memsz m (padd (padd image (e_phoff m image)) (56 * i)) / 16 →
        ∀ k, k < 8 →
          off_ident image
            (padd (padd image (p_offset m (padd (padd image (e_phoff m image)) (56 * i))))
              (16 * j) + k))

/-- The relocation entries handled, in order, as recorded in a log. -/
def handled_entries (log : List Event) : List Nat :=
  log.filterMap (fun e => match e with
    | Event.handled entry => some entry
    | _ => none)

/-! ## A small guest, used at concrete inputs -/

/-- Memory holding the listed bytes and zero elsewhere. -/
def mem_of (l : List (Nat × Nat)) : Mem := fun a => (l.lookup a).getD 0

/-- The bytes of a file as they appear through a pointer `base` to its start. -/
def place (base : Nat) (l : List (Nat × Nat)) : List (Nat × Nat) :=
  l.map (fun ob => (padd base ob.1, ob.2))

/-- A guest file: its non-zero bytes, by offset (multi-byte fields little-endian).
The dynamic array declares a main relocation table of 48 bytes (two records, at 0x400 and
0x418) and PLT relocations of 24 bytes (one record, at 0x430); two more records follow. -/
def file_example : List (Nat × Nat) :=
  [
   -- ELF header: magic, class, data, version
   (0x0, 0x7f), (0x1, 0x45), (0x2, 0x4c), (0x3, 0x46), (0x4, 0x2), (0x5, 0x1), (0x6, 0x1),
   -- e_type = 3, e_machine = 62, e_version = 1
   (0x10, 0x3), (0x12, 0x3e), (0x14, 0x1),
   -- e_entry = 0x1000
   (0x19, 0x10),
   -- e_phoff = 64
   (0x20, 0x40),
   -- e_phnum = 2
   (0x38, 0x2),
   -- header 0: PT_LOAD, flags 7, p_filesz = p_memsz = 0x1000
   (0x40, 0x1), (0x44, 0x7), (0x61, 0x10), (0x69, 0x10),
   -- header 1: PT_DYNAMIC, flags 6, p_offset = p_vaddr = 0x100, p_filesz = p_memsz = 96
   (0x78, 0x2), (0x7c, 0x6), (0x81, 0x1), (0x89, 0x1), (0x98, 0x60), (0xa0, 0x60),
   -- DT_STRTAB 0x300
   (0x100, 0x5), (0x109, 0x3),
   -- DT_SYMTAB 0x200
   (0x110, 0x6), (0x119, 0x2),
   -- DT_RELA 0x400
   (0x120, 0x7), (0x129, 0x4),
   -- DT_RELASZ 48
   (0x130, 0x8), (0x138, 0x30),
   -- DT_PLTRELSZ 24
   (0x140, 0x2), (0x148, 0x18),
   -- symbol 1: st_name = 1; symbol 2: st_name = 8
   (0x218, 0x1), (0x230, 0x8),
   -- string table: NUL, stdout, NUL, puts, NUL
   (0x301, 0x73), (0x302, 0x74), (0x303, 0x64), (0x304, 0x6f), (0x305, 0x75), (0x306, 0x74), (0x308, 0x70), (0x309, 0x75), (0x30a, 0x74), (0x30b, 0x73),
   -- 0x400: r_offset 0x3000, GLOB_DAT, symbol 1
   (0x401, 0x30), (0x408, 0x6), (0x40c, 0x1),
   -- 0x418: r_offset 0x3008, RELATIVE, symbol 0, addend 0x2000
   (0x418, 0x8), (0x419, 0x30), (0x420, 0x8), (0x429, 0x20),
   -- 0x430: r_offset 0x3010, JUMP_SLOT, symbol 2
   (0x430, 0x10), (0x431, 0x30), (0x438, 0x7), (0x43c, 0x2),
   -- 0x448: r_offset 0x3018, JUMP_SLOT, symbol 2
   (0x448, 0x18), (0x449, 0x30), (0x450, 0x7), (0x454, 0x2),
   -- 0x460: r_offset 0x3020, RELATIVE, symbol 1, addend 0x2000
   (0x460, 0x20), (0x461, 0x30), (0x468, 0x8), (0x46c, 0x1), (0x471, 0x20)
  ]

/-- A host that opens the guest as descriptor 3, maps the file at 0x7f0000000000 and grants
every fixed mapping; a mapping of length 0 is refused, as the kernel does. -/
def host_example : Host :=
  { stdin := 0x7f0000100000, stdout := 0x7f0000100100, stderr := 0x7f0000100200,
    libc_start_main_impl := 0x401000, dlsym := fun _ => 0x7f0000200000,
    access_ret := 0, open_ret := 3, malloc_ok := true, stat_ret := 0, st_size := 4096,
    file := mem_of file_example,
    mmap := fun addr len _ _ _ _ =>
      if len = 0 then MAP_FAILED else if addr = 0 then 0x7f0000000000 else addr }

def state_empty : State := { mem := fun _ => 0, log := [] }

/-- The aggregate `parse_elf` builds for the guest. -/
def binary_example : elf_t :=
  { fd := 3, header := 0x7f0000000000, program_header_table := 0x7f0000000040,
    relocations := 0x10000400, dynamic_section := 0x7f0000000100,
    dynamic_syms := 0x7f0000000200, size := 4096, dynamic_section_size := 96,
    memory := 0x7f0000000000, dynamic_strtab := 0x7f0000000300 }

/-- The state once the guest is parsed and its `PT_LOAD` segment is mapped. -/
def state_loaded : State :=
  (map_segments host_example binary_example 65536 0 (parse_elf host_example state_empty).2).2

/-- The same host when the guest file is empty. -/
def host_empty_file : Host := { host_example with st_size := 0 }

/-- A memory in which the bytes of the guest are what is read through `MAP_FAILED`. -/
def state_wild : State := { mem := mem_of (place MAP_FAILED file_example), log := [] }

/-- The same host when `malloc` returns `NULL`. -/
def host_no_memory : Host := { host_example with malloc_ok := false }

/-- A memory holding one PT_LOAD header at 0x1000: flags R+X, `p_offset = 0x2345`,
`p_vaddr = 0x401345`, `p_filesz = p_memsz = 0x1800`. -/
def state_segment : State :=
  { mem := mem_of [(0x1000, 0x1), (0x1004, 0x5), (0x1008, 0x45), (0x1009, 0x23),
      (0x1010, 0x45), (0x1011, 0x13), (0x1012, 0x40), (0x1021, 0x18), (0x1029, 0x18)],
    log := [] }

/-- A process before `main` runs: the variables are zero-initialised. -/
def process_start : Process :=
  { cmdline_argc := 0, cmdline_argv := [], stderr := [], st := state_empty }

/-- The guest file with `e_ident[EI_CLASS]` set to ELFCLASS32. -/
def host_example_class32 : Host :=
  { host_example with file := mem_of ((4, 1) :: file_example) }

/-- A file whose program header table starts at offset 4 (`e_phoff = 4`, `e_phnum = 1`): the
`p_type` of its only header is the four bytes from `e_ident[EI_CLASS]` on, here 2
(ELFCLASS64 read as PT_DYNAMIC); `p_offset` (bytes 12 to 19) is 0x100, `p_memsz` (bytes 44 to
51) is 64; at 0x100: DT_STRTAB, DT_SYMTAB, DT_RELA, DT_NULL. -/
def file_overlap : List (Nat × Nat) :=
  [(0x0, 0x7f), (0x1, 0x45), (0x2, 0x4c), (0x3, 0x46), (0x4, 0x2),
   (0xd, 0x1), (0x20, 0x4), (0x2c, 0x40), (0x38, 0x1),
   (0x100, 0x5), (0x109, 0x3), (0x110, 0x6), (0x119, 0x2), (0x120, 0x7), (0x129, 0x4)]

def host_overlap : Host := { host_example with file := mem_of file_overlap }

/-- The same file with `e_ident[EI_CLASS]` set to ELFCLASS32. -/
def host_overlap_class32 : Host :=
  { host_example with file := mem_of ((4, 1) :: file_overlap) }

/-! ## Memory and arithmetic lemmas -/

theorem store64_at (m : Mem) (a v k : Nat) (hk : k < 8) :
    store64 m a v (a + k) = (v / 256 ^ k) % 256 := by
  unfold store64
  have h1 : a ≤ a + k ∧ a + k < a + 8 := ⟨by omega, by omega⟩
  rw [if_pos h1, Nat.add_sub_cancel_left]

theorem le_bytes (v : Nat) :
    v % 256 + 256 * (v / 256 % 256) + 65536 * (v / 65536 % 256 + 256 * (v / 16777216 % 256))
    + 4294967296 * (v / 4294967296 % 256 + 256 * (v / 1099511627776 % 256)
      + 65536 * (v / 281474976710656 % 256 + 256 * (v / 72057594037927936 % 256)))
    = v % 18446744073709551616 := by
  omega

theorem load64_store64_same (m : Mem) (a v : Nat) :
    load64 (store64 m a v) a = v % U64 := by
  have h0 := store64_at m a v 0 (by omega)
  have h1 := store64_at m a v 1 (by omega)
  have h2 := store64_at m a v 2 (by omega)
  have h3 := store64_at m a v 3 (by omega)
  have h4 := store64_at m a v 4 (by omega)
  have h5 := store64_at m a v 5 (by omega)
  have h6 := store64_at m a v 6 (by omega)
  have h7 := store64_at m a v 7 (by omega)
  norm_num at h0 h1 h2 h3 h4 h5 h6 h7
  simp only [load64, load32, load16, load8, U64, Nat.add_assoc, Nat.reduceAdd,
    h0, h1, h2, h3, h4, h5, h6, h7, Nat.mod_mod]
  simpa only [Nat.add_assoc] using le_bytes v

theorem load64_lt (m : Mem) (a : Nat) : load64 m a < U64 := by
  simp only [load64, load32, load16, load8, U64]
  omega

theorem and_0xfff (x : Nat) : x &&& 0xfff = x % 4096 := by
  have := Nat.and_pow_two_sub_one_eq_mod x 12
  simpa using this

theorem and_NOT_0xfff (x : Nat) (hx : x < U64) : x &&& NOT_0xfff = x - x % 4096 := by
  have h1 : x &&& NOT_0xfff = (x >>> 12) <<< 12 := by
    apply Nat.eq_of_testBit_eq
    intro i
    have hm : NOT_0xfff = (2 ^ 52 - 1) <<< 12 := by decide
    rw [Nat.testBit_and, hm, Nat.testBit_shiftLeft, Nat.testBit_shiftLeft, Nat.testBit_shiftRight,
      Nat.testBit_two_pow_sub_one]
    by_cases h12 : 12 ≤ i
    · by_cases h64 : i < 64
      · have : i - 12 < 52 := by omega
        simp [h12, this, Nat.add_sub_cancel' h12]
      · have hx2 : x < 2 ^ i := by
          calc x < 2 ^ 64 := by simpa [U64] using hx
            _ ≤ 2 ^ i := Nat.pow_le_pow_right (by decide) (by omega)
        have hf : x.testBit i = false := Nat.testBit_lt_two_pow hx2
        simp [hf, Nat.add_sub_cancel' h12]
    · simp [h12]
  rw [h1, Nat.shiftLeft_eq, Nat.shiftRight_eq_div_pow]
  have : (2 : Nat) ^ 12 = 4096 := by norm_num
  rw [this]
  omega

/-! ## Lemmas on the scanning loops -/

theorem first_from_eq_some (p : Nat → Bool) (k i j : Nat) :
    first_from p i k = some j ↔
      i ≤ j ∧ j < i + k ∧ p j = true ∧ ∀ l, i ≤ l → l < j → p l = false := by
  induction k generalizing i with
  | zero =>
    simp only [first_from]
    constructor
    · intro h; cases h
    · rintro ⟨h1, h2, _⟩; omega
  | succ k ih =>
    simp only [first_from]
    by_cases hp : p i = true
    · rw [if_pos hp]
      constructor
      · intro h
        cases h
        exact ⟨le_refl _, by omega, hp, fun l h1 h2 => by omega⟩
      · rintro ⟨h1, _, _, h4⟩
        rcases Nat.eq_or_lt_of_le h1 with rfl | hlt
        · rfl
        · have := h4 i (le_refl _) hlt
          rw [hp] at this; cases this
    · rw [if_neg hp, ih]
      have hpf : p i = false := by simpa using hp
      constructor
      · rintro ⟨h1, h2, h3, h4⟩
        refine ⟨by omega, by omega, h3, fun l hl1 hl2 => ?_⟩
        rcases Nat.eq_or_lt_of_le hl1 with rfl | hlt
        · exact hpf
        · exact h4 l hlt hl2
      · rintro ⟨h1, h2, h3, h4⟩
        have hne : i ≠ j := by
          rintro rfl
          rw [hpf] at h3; cases h3
        exact ⟨by omega, by omega, h3, fun l hl1 hl2 => h4 l (by omega) hl2⟩

theorem first_from_eq_none (p : Nat → Bool) (k i : Nat) :
    first_from p i k = none ↔ ∀ l, i ≤ l → l < i + k → p l = false := by
  induction k generalizing i with
  | zero =>
    simp only [first_from, true_iff]
    intro l h1 h2; omega
  | succ k ih =>
    simp only [first_from]
    by_cases hp : p i = true
    · rw [if_pos hp]
      constructor
      · intro h; cases h
      · intro h
        have := h i (le_refl _) (by omega)
        rw [hp] at this; cases this
    · rw [if_neg hp, ih]
      have hpf : p i = false := by simpa using hp
      constructor
      · intro h l h1 h2
        rcases Nat.eq_or_lt_of_le h1 with rfl | hlt
        · exact hpf
        · exact h l hlt (by omega)
      · intro h l h1 h2
        exact h l (by omega) (by omega)

theorem first_index_isSome (p : Nat → Bool) (n : Nat) :
    (first_index p n).isSome = true ↔ ∃ j, j < n ∧ p j = true := by
  constructor
  · intro h
    obtain ⟨j, hj⟩ := Option.isSome_iff_exists.1 h
    obtain ⟨_, h2, h3, _⟩ := (first_from_eq_some p n 0 j).1 hj
    exact ⟨j, by omega, h3⟩
  · rintro ⟨j, hj, hp⟩
    cases hf : first_index p n with
    | some x => rfl
    | none =>
      have := (first_from_eq_none p n 0).1 hf j (Nat.zero_le _) (by omega)
      rw [hp] at this; cases this

theorem isSome_map_eq {α β : Type} (f : α → β) (o : Option α) :
    (o.map f).isSome = o.isSome := by
  cases o <;> rfl

theorem dyn_scan_isSome (m : Mem) (dyn size type : Nat) (ht : type ≠ DT_NULL) :
    (dyn_scan m dyn size type).isSome = true ↔ dyn_contains m dyn (size / 16) type := by
  unfold dyn_scan dyn_contains
  rw [isSome_map_eq, first_index_isSome]
  simp only [sizeof_Elf64_Dyn, Bool.and_eq_true, decide_eq_true_eq]
  constructor
  · rintro ⟨j, hj, _, h2⟩; exact ⟨j, hj, h2⟩
  · rintro ⟨j, hj, h2⟩; exact ⟨j, hj, by rw [h2]; exact ht, h2⟩

theorem dyn_scan_eq_none (m : Mem) (dyn size type : Nat) (ht : type ≠ DT_NULL) :
    dyn_scan m dyn size type = none ↔ ¬ dyn_contains m dyn (size / 16) type := by
  rw [← dyn_scan_isSome m dyn size type ht]
  cases dyn_scan m dyn size type <;> simp

theorem phdr_scan_eq_some (m : Mem) (pht n type ph : Nat) :
    phdr_scan m pht n type = some ph ↔
      ∃ i, i < n ∧ ph = padd pht (56 * i) ∧ p_type m (padd pht (56 * i)) = type ∧
        ∀ j, j < i → p_type m (padd pht (56 * j)) ≠ type := by
  unfold phdr_scan first_index
  rw [Option.map_eq_some']
  simp only [sizeof_Elf64_Phdr]
  constructor
  · rintro ⟨i, hi, rfl⟩
    obtain ⟨_, h2, h3, h4⟩ := (first_from_eq_some _ _ _ _).1 hi
    refine ⟨i, by omega, rfl, by simpa using h3, fun j hj => ?_⟩
    simpa using h4 j (Nat.zero_le _) hj
  · rintro ⟨i, hi, rfl, h3, h4⟩
    refine ⟨i, (first_from_eq_some _ _ _ _).2 ⟨Nat.zero_le _, by omega, by simpa using h3, ?_⟩, rfl⟩
    intro l _ hl
    simpa using h4 l hl

theorem phdr_scan_eq_none (m : Mem) (pht n type : Nat) :
    phdr_scan m pht n type = none ↔ ∀ i, i < n → p_type m (padd pht (56 * i)) ≠ type := by
  unfold phdr_scan first_index
  rw [Option.map_eq_none', first_from_eq_none]
  simp only [sizeof_Elf64_Phdr]
  constructor
  · intro h i hi
    simpa using h i (Nat.zero_le _) (by omega)
  · intro h l _ hl
    simpa using h l (by omega)

theorem check_elf_header_iff (m : Mem) (hdr : Nat) :
    check_elf_header m hdr = true ↔
      e_ident m hdr 0 = 0x7f ∧ e_ident m hdr 1 = 69 ∧ e_ident m hdr 2 = 76 ∧
      e_ident m hdr 3 = 70 := by
  simp [check_elf_header, EI_MAG0, EI_MAG1, EI_MAG2, EI_MAG3, ELFMAG0, ELFMAG1, ELFMAG2,
    ELFMAG3, and_assoc]

theorem parse_elf_image_isSome (b0 : elf_t) (st : State) :
    (parse_elf_image b0 st).1.isSome = true ↔ spec_parse_ok st.mem b0.memory := by
  unfold parse_elf_image spec_parse_ok
  simp only [resolve_elf_phdr, resolve_elf_dyn]
  by_cases hmag : check_elf_header st.mem b0.memory = true
  swap
  · rw [if_pos hmag]
    constructor
    · intro h; cases h
    · rintro ⟨h0, h1, h2, h3, _⟩
      exact absurd ((check_elf_header_iff _ _).2 ⟨h0, h1, h2, h3⟩) hmag
  rw [if_neg (by simpa using hmag)]
  obtain ⟨h0, h1, h2, h3⟩ := (check_elf_header_iff _ _).1 hmag
  by_cases hph : e_phoff st.mem b0.memory = 0
  · rw [if_pos hph]
    constructor
    · intro h; cases h
    · rintro ⟨_, _, _, _, h5, _⟩; exact absurd hph h5
  rw [if_neg hph]
  cases hdyn : phdr_scan st.mem (padd b0.memory (e_phoff st.mem b0.memory))
      (e_phnum st.mem b0.memory) PT_DYNAMIC with
  | none =>
    simp only
    constructor
    · intro h; cases h
    · rintro ⟨_, _, _, _, _, i, hi, hpt, _⟩
      exact absurd hpt ((phdr_scan_eq_none _ _ _ _).1 hdyn i hi)
  | some ph =>
    obtain ⟨i, hi, rfl, hpt, hfirst⟩ := (phdr_scan_eq_some _ _ _ _ _).1 hdyn
    simp only
    have hkey : ∀ i', i' < e_phnum st.mem b0.memory →
        p_type st.mem (padd (padd b0.memory (e_phoff st.mem b0.memory)) (56 * i')) = PT_DYNAMIC →
        (∀ j, j < i' →
          p_type st.mem (padd (padd b0.memory (e_phoff st.mem b0.memory)) (56 * j)) ≠ PT_DYNAMIC) →
        i' = i := by
      intro i' _ hpt' hfirst'
      rcases Nat.lt_trichotomy i' i with hlt | heq | hgt
      · exact absurd hpt' (hfirst i' hlt)
      · exact heq
      · exact absurd hpt (hfirst' i hgt)
    have e5 : DT_STRTAB ≠ DT_NULL := by decide
    have e6 : DT_SYMTAB ≠ DT_NULL := by decide
    have e17 : DT_REL ≠ DT_NULL := by decide
    have e7 : DT_RELA ≠ DT_NULL := by decide
    constructor
    · intro hsome
      refine ⟨h0, h1, h2, h3, hph, i, hi, hpt, hfirst, ?_⟩
      split at hsome
      · rename_i s y hS hY
        refine ⟨(dyn_scan_isSome _ _ _ _ e5).1 (by rw [hS]; rfl),
          (dyn_scan_isSome _ _ _ _ e6).1 (by rw [hY]; rfl), ?_⟩
        by_contra hno
        rw [not_or] at hno
        rw [(dyn_scan_eq_none _ _ _ _ e17).2 hno.1, (dyn_scan_eq_none _ _ _ _ e7).2 hno.2] at hsome
        cases hsome
      · cases hsome
    · rintro ⟨_, _, _, _, _, i', hi', hpt', hfirst', hS, hY, hRA⟩
      obtain rfl := hkey i' hi' hpt' hfirst'
      obtain ⟨s, hs⟩ := Option.isSome_iff_exists.1 ((dyn_scan_isSome _ _ _ _ e5).2 hS)
      obtain ⟨y, hy⟩ := Option.isSome_iff_exists.1 ((dyn_scan_isSome _ _ _ _ e6).2 hY)
      rw [hs, hy]
      simp only
      rcases hRA with hR | hA
      · obtain ⟨r, hr⟩ := Option.isSome_iff_exists.1 ((dyn_scan_isSome _ _ _ _ e17).2 hR)
        rw [hr]; rfl
      · obtain ⟨a, ha⟩ := Option.isSome_iff_exists.1 ((dyn_scan_isSome _ _ _ _ e7).2 hA)
        rw [ha]
        cases dyn_scan st.mem (padd b0.memory (p_offset st.mem
          (padd (padd b0.memory (e_phoff st.mem b0.memory)) (56 * i'))))
          (p_memsz st.mem (padd (padd b0.memory (e_phoff st.mem b0.memory)) (56 * i'))) DT_REL <;> rfl

/-! ## Lemmas on symbol resolution -/

theorem strncmp_lit_zero_iff (l : List Nat) (hl : ∀ c ∈ l, c ≠ 0) (s : CStr) :
    strncmp (CStr.lit l) s l.length = 0 ↔ ∀ k, k < l.length → s k = l.getD k 0 := by
  induction l generalizing s with
  | nil => simp [strncmp]
  | cons c t ih =>
    have hc : c ≠ 0 := hl c (by simp)
    have ht : ∀ d ∈ t, d ≠ 0 := fun d hd => hl d (by simp [hd])
    have hshift : (fun k => CStr.lit (c :: t) (k + 1)) = CStr.lit t := by
      funext k; simp [CStr.lit]
    simp only [List.length_cons, strncmp]
    have h0 : CStr.lit (c :: t) 0 = c := by simp [CStr.lit]
    rw [h0, hshift]
    by_cases hcs : c = s 0
    · rw [if_neg (by simpa using hcs), if_neg hc, ih ht]
      constructor
      · intro h k hk
        cases k with
        | zero => simpa using hcs.symm
        | succ j => simpa using h j (by omega)
      · intro h k hk
        simpa using h (k + 1) (by omega)
    · rw [if_pos (by simpa using hcs)]
      constructor
      · intro h; exfalso; apply hcs; omega
      · intro h; exfalso; apply hcs; have := h 0 (by omega); simpa using this.symm

theorem lit_prefix_iff (l q : List Nat) (hl : ∀ c ∈ l, c ≠ 0) :
    (∀ k, k < l.length → CStr.lit q k = l.getD k 0) ↔ l <+: q := by
  induction l generalizing q with
  | nil => simp
  | cons c t ih =>
    have hc : c ≠ 0 := hl c (by simp)
    have ht : ∀ d ∈ t, d ≠ 0 := fun d hd => hl d (by simp [hd])
    cases q with
    | nil =>
      simp only [List.length_cons, CStr.lit]
      constructor
      · intro h; have := h 0 (by omega); simp at this; exact absurd this.symm hc
      · intro h; simp at h
    | cons d u =>
      rw [List.cons_prefix_cons, ← ih u ht]
      constructor
      · intro h
        refine ⟨by simpa [CStr.lit] using (h 0 (by simp)).symm, fun k hk => ?_⟩
        simpa [CStr.lit] using h (k + 1) (by simp; omega)
      · rintro ⟨rfl, h⟩ k hk
        cases k with
        | zero => simp [CStr.lit]
        | succ j => simpa [CStr.lit] using h j (by simpa using hk)

theorem spells_prefix_iff (s : CStr) (q l : List Nat) (hq : s.spells q) (hl : ∀ c ∈ l, c ≠ 0) :
    (∀ k, k < l.length → s k = l.getD k 0) ↔ l <+: q := by
  rw [← lit_prefix_iff l q hl]
  constructor
  · intro h k hk
    by_cases hkq : k < q.length
    · rw [← h k hk]; exact ((hq.1 k hkq).1).symm
    · exfalso
      have h1 := h q.length (by omega)
      rw [hq.2] at h1
      have h2 : l.getD q.length 0 ∈ l := by
        rw [List.getD_eq_getElem l 0 (by omega)]
        exact List.getElem_mem _
      exact hl _ h2 h1.symm
  · intro h k hk
    have hle : l.length ≤ q.length := ((lit_prefix_iff l q hl).1 h).length_le
    rw [← h k hk]
    exact (hq.1 k (by omega)).1

theorem symbols_no_nul (h : Host) : ∀ e ∈ symbols h, ∀ c ∈ e.symbol, c ≠ 0 := by
  intro e he
  simp only [symbols, symbols_static, List.mem_cons, List.mem_singleton, List.not_mem_nil, or_false] at he
  rcases he with rfl | rfl | rfl | rfl <;> (show ∀ c ∈ chars _, c ≠ 0) <;> decide

theorem symbol_match_iff (h : Host) (s : CStr) (q : List Nat) (hq : s.spells q) :
    ∀ e ∈ symbols h, (strncmp (CStr.lit e.symbol) s (strlen e.symbol) = 0 ↔ e.symbol <+: q) := by
  intro e he
  rw [strlen, strncmp_lit_zero_iff _ (symbols_no_nul h e he), spells_prefix_iff s q _ hq (symbols_no_nul h e he)]

theorem resolve_in_eq_find (table : List reloc_sym_t) (s : CStr) (q : List Nat)
    (hm : ∀ e ∈ table, (strncmp (CStr.lit e.symbol) s (strlen e.symbol) = 0 ↔ e.symbol <+: q)) :
    resolve_in table s =
      (match table.find? (fun e => e.symbol.isPrefixOf q) with
       | some e => e.ptr
       | none => 0) := by
  induction table with
  | nil => simp [resolve_in]
  | cons e t ih =>
    have he := hm e (by simp)
    have ht := ih (fun x hx => hm x (by simp [hx]))
    simp only [resolve_in, List.find?_cons]
    by_cases hp : e.symbol <+: q
    · rw [if_pos (he.2 hp)]
      have : e.symbol.isPrefixOf q = true := List.isPrefixOf_iff_prefix.2 hp
      simp [this]
    · rw [if_neg (fun hc => hp (he.1 hc))]
      have : e.symbol.isPrefixOf q = false := by
        rw [← Bool.not_eq_true, List.isPrefixOf_iff_prefix]; exact hp
      simp [this, ht]

theorem symbols_ptr_pos (h : Host) (hn : h.nonnull) : ∀ e ∈ symbols h, 0 < e.ptr := by
  intro e he
  obtain ⟨h1, h2, h3, h4⟩ := hn
  simp only [symbols, symbols_static, List.mem_cons, List.mem_singleton, List.not_mem_nil, or_false] at he
  rcases he with rfl | rfl | rfl | rfl <;> assumption

theorem relocate_entry_mem (h : Host) (binary : elf_t) (st : State) (entry : Nat)
    (hne : load8 st.mem (reloc_symbol_name st.mem binary (Elf64_Rela.read st.mem entry)) ≠ 0) :
    relocate_entry h binary st entry =
      apply_relocation (st.emit (Event.handled entry)) (Elf64_Rela.read st.mem entry)
        (reloc_symbol_ptr h (CStr.ofMem st.mem
          (reloc_symbol_name st.mem binary (Elf64_Rela.read st.mem entry))))
        (reloc_address (Elf64_Rela.read st.mem entry)) := by
  simp only [relocate_entry]
  rw [if_neg hne]

theorem reloc_symbol_ptr_lt (h : Host) (hw : h.word64) (s : CStr) : reloc_symbol_ptr h s < U64 := by
  obtain ⟨h1, h2, h3, h4, h5⟩ := hw
  have hall : ∀ t : List reloc_sym_t, (∀ e ∈ t, e.ptr < U64) → resolve_in t s < U64 := by
    intro t
    induction t with
    | nil => intro _; simp [resolve_in, U64]
    | cons e r ih =>
      intro ht
      simp only [resolve_in]
      split
      · exact ht e (by simp)
      · exact ih (fun x hx => ht x (by simp [hx]))
  have hs : ∀ e ∈ symbols h, e.ptr < U64 := by
    intro e he
    simp only [symbols, symbols_static, List.mem_cons, List.mem_singleton, List.not_mem_nil, or_false] at he
    rcases he with rfl | rfl | rfl | rfl <;> assumption
  simp only [reloc_symbol_ptr, resolve_reloc_symbol]
  split
  · exact h5 s
  · exact hall _ hs

theorem segment_protections_spec (flags : Nat) :
    (segment_protections flags &&& PROT_EXEC ≠ 0 ↔ flags &&& PF_X ≠ 0) ∧
    (segment_protections flags &&& PROT_WRITE ≠ 0 ↔ flags &&& PF_W ≠ 0) ∧
    (segment_protections flags &&& PROT_READ ≠ 0 ↔ flags &&& PF_R ≠ 0) ∧
    segment_protections flags ≤ 7 := by
  unfold segment_protections
  by_cases hx : flags &&& PF_X = 0 <;> by_cases hw : flags &&& PF_W = 0 <;>
    by_cases hr : flags &&& PF_R = 0 <;>
    simp [hx, hw, hr, PROT_EXEC, PROT_WRITE, PROT_READ] <;> decide

theorem segment_protections_low (f g : Nat) (hfg : f &&& 7 = g &&& 7) :
    segment_protections f = segment_protections g := by
  have e : ∀ x k : Nat, 7 &&& k = k → x &&& k = (x &&& 7) &&& k := by
    intro x k hk; rw [Nat.land_assoc, hk]
  have h1 : f &&& 1 = g &&& 1 := by rw [e f 1 (by decide), e g 1 (by decide), hfg]
  have h2 : f &&& 2 = g &&& 2 := by rw [e f 2 (by decide), e g 2 (by decide), hfg]
  have h4 : f &&& 4 = g &&& 4 := by rw [e f 4 (by decide), e g 4 (by decide), hfg]
  simp only [segment_protections, PF_X, PF_W, PF_R, h1, h2, h4]

/-! ## The claims -/

theorem host_example_word64 : host_example.word64 := by
  unfold Host.word64
  refine ⟨by decide, by decide, by decide, by decide, fun _ => ?_⟩
  show (0x7f0000200000 : Nat) < U64
  decide

theorem host_example_nonnull : host_example.nonnull := by
  unfold Host.nonnull; decide

/-! ## C1 -/

/-- Claim C1, as stated, fails: the guest's R_X86_64_RELATIVE entry at 0x10000418 refers to
symbol 0, whose name is empty, so the entry is skipped and the word at `B + 0x3008` keeps its
prior value 0 instead of becoming `0 + B + 0x2000`. -/
theorem relocate_entry_relative_unnamed_unchanged :
    ¬ (∀ (h : Host) (binary : elf_t) (st : State) (entry : Nat),
        ELF64_R_TYPE (Elf64_Rela.read st.mem entry).r_info = R_X86_64_RELATIVE →
        ((load64 (relocate_entry h binary st entry).mem
            (reloc_address (Elf64_Rela.read st.mem entry)) : Nat) : Int) =
          ((load64 st.mem (reloc_address (Elf64_Rela.read st.mem entry)) : Nat) +
            (ELF_BASE_ADDR_VAL : Int) + (Elf64_Rela.read st.mem entry).r_addend) %
            18446744073709551616) := by
  intro hall
  have hc := hall host_example binary_example state_loaded 0x10000418 (by decide)
  revert hc
  decide

/-- Claim C1 (amended): for every R_X86_64_RELATIVE entry whose symbol name is not empty,
after the entry is handled the 64-bit word at `B + r_offset` equals its prior value plus
`B + r_addend`, modulo 2^64. -/
theorem relocate_entry_relative (h : Host) (binary : elf_t) (st : State) (entry : Nat)
    (ht : ELF64_R_TYPE (Elf64_Rela.read st.mem entry).r_info = R_X86_64_RELATIVE)
    (hne : load8 st.mem (reloc_symbol_name st.mem binary (Elf64_Rela.read st.mem entry)) ≠ 0) :
    ((load64 (relocate_entry h binary st entry).mem
        (reloc_address (Elf64_Rela.read st.mem entry)) : Nat) : Int) =
      ((load64 st.mem (reloc_address (Elf64_Rela.read st.mem entry)) : Nat) +
        (ELF_BASE_ADDR_VAL : Int) + (Elf64_Rela.read st.mem entry).r_addend) %
        18446744073709551616 := by
  rw [relocate_entry_mem h binary st entry hne]
  simp only [apply_relocation, ht, if_true, State.store, State.emit]
  rw [load64_store64_same]
  simp only [toU64, U64]
  omega

theorem relocate_entry_relative_witness :
    load64 state_loaded.mem 0x10003020 = 0 ∧
    (Elf64_Rela.read state_loaded.mem 0x10000460).r_addend = 0x2000 ∧
    ((load64 (relocate_entry host_example binary_example state_loaded 0x10000460).mem
        (reloc_address (Elf64_Rela.read state_loaded.mem 0x10000460)) : Nat) : Int) =
      ((load64 state_loaded.mem (reloc_address (Elf64_Rela.read state_loaded.mem 0x10000460)) : Nat) +
        (ELF_BASE_ADDR_VAL : Int) + (Elf64_Rela.read state_loaded.mem 0x10000460).r_addend) %
        18446744073709551616 :=
  ⟨by decide, by decide,
    relocate_entry_relative host_example binary_example state_loaded 0x10000460
      (by decide) (by decide)⟩

/-! ## C2 -/

/-- Claim C2: for an entry of type R_X86_64_GLOB_DAT or R_X86_64_JUMP_SLOT with a non-empty
symbol name, after the entry is handled the word at `B + r_offset` is the pointer that symbol
resolution returned (local table first, `dlsym` on a miss); for a JUMP_SLOT whose name resolves
neither locally nor through `dlsym` the word is zero. -/
theorem relocate_entry_glob_dat_jump_slot (h : Host) (hw : h.word64) (binary : elf_t) (st : State)
    (entry : Nat)
    (ht : ELF64_R_TYPE (Elf64_Rela.read st.mem entry).r_info = R_X86_64_GLOB_DAT ∨
          ELF64_R_TYPE (Elf64_Rela.read st.mem entry).r_info = R_X86_64_JUMP_SLOT)
    (hne : load8 st.mem (reloc_symbol_name st.mem binary (Elf64_Rela.read st.mem entry)) ≠ 0) :
    load64 (relocate_entry h binary st entry).mem (reloc_address (Elf64_Rela.read st.mem entry)) =
      reloc_symbol_ptr h (CStr.ofMem st.mem
        (reloc_symbol_name st.mem binary (Elf64_Rela.read st.mem entry))) ∧
    (ELF64_R_TYPE (Elf64_Rela.read st.mem entry).r_info = R_X86_64_JUMP_SLOT →
      resolve_reloc_symbol h (CStr.ofMem st.mem
        (reloc_symbol_name st.mem binary (Elf64_Rela.read st.mem entry))) = 0 →
      h.dlsym (CStr.ofMem st.mem
        (reloc_symbol_name st.mem binary (Elf64_Rela.read st.mem entry))) = 0 →
      load64 (relocate_entry h binary st entry).mem
        (reloc_address (Elf64_Rela.read st.mem entry)) = 0) := by
  have hlt := reloc_symbol_ptr_lt h hw (CStr.ofMem st.mem
        (reloc_symbol_name st.mem binary (Elf64_Rela.read st.mem entry)))
  have main : load64 (relocate_entry h binary st entry).mem
      (reloc_address (Elf64_Rela.read st.mem entry)) =
      reloc_symbol_ptr h (CStr.ofMem st.mem
        (reloc_symbol_name st.mem binary (Elf64_Rela.read st.mem entry))) := by
    rw [relocate_entry_mem h binary st entry hne]
    rcases ht with ht | ht
    · simp only [apply_relocation, ht, R_X86_64_GLOB_DAT, R_X86_64_RELATIVE, R_X86_64_COPY,
        State.store, State.emit]
      simp only [Nat.reduceEqDiff, if_false, if_true]
      rw [load64_store64_same, Nat.mod_eq_of_lt hlt]
    · simp only [apply_relocation, ht, R_X86_64_GLOB_DAT, R_X86_64_RELATIVE, R_X86_64_COPY,
        R_X86_64_JUMP_SLOT, State.store, State.emit]
      simp only [Nat.reduceEqDiff, if_false, if_true]
      split
      · rw [load64_store64_same, Nat.mod_eq_of_lt hlt]
      · rename_i hz
        rw [load64_store64_same]
        simp only [ne_eq, not_not] at hz
        rw [hz]; rfl
  refine ⟨main, ?_⟩
  intro _ hr hd
  rw [main]
  simp only [reloc_symbol_ptr, hr, if_true, hd]

theorem relocate_entry_glob_dat_jump_slot_witness :
    load64 (relocate_entry host_example binary_example state_loaded 0x10000400).mem 0x10003000 =
      host_example.stdout ∧
    load64 (relocate_entry host_example binary_example state_loaded 0x10000430).mem 0x10003010 =
      0x7f0000200000 := by
  have h1 := (relocate_entry_glob_dat_jump_slot host_example host_example_word64 binary_example
    state_loaded 0x10000400 (Or.inl (by decide)) (by decide)).1
  have h2 := (relocate_entry_glob_dat_jump_slot host_example host_example_word64 binary_example
    state_loaded 0x10000430 (Or.inr (by decide)) (by decide)).1
  have a1 : reloc_address (Elf64_Rela.read state_loaded.mem 0x10000400) = 0x10003000 := by decide
  have a2 : reloc_address (Elf64_Rela.read state_loaded.mem 0x10000430) = 0x10003010 := by decide
  rw [a1] at h1
  rw [a2] at h2
  refine ⟨h1.trans (by decide), h2.trans (by decide)⟩

/-! ## C3 -/

/-- Claim C3 fails on the guest: its dynamic array gives DT_RELASZ = 48 and DT_PLTRELSZ = 24,
so the second pass should handle 24 / 24 = 1 entry (the one at 0x10000430); both calls of
`relocate_data` receive the DT_RELASZ value, and the second pass handles the two entries at
0x10000430 and 0x10000448. -/
theorem elf_manual_map_second_pass_size :
    (parse_elf host_example state_empty).1 = some binary_example ∧
    (resolve_elf_dyn state_loaded.mem binary_example DT_RELASZ).map (d_un state_loaded.mem) =
      some 48 ∧
    (resolve_elf_dyn state_loaded.mem binary_example DT_PLTRELSZ).map (d_un state_loaded.mem) =
      some 24 ∧
    handled_entries (relocate_data host_example binary_example 48 false state_loaded).log =
      [0x10000400, 0x10000418] ∧
    handled_entries (elf_manual_map host_example state_empty).log =
      [0x10000400, 0x10000418, 0x10000430, 0x10000448] := by
  refine ⟨by decide, by decide, by decide, by decide, by decide⟩

/-! ## C4 -/

/-- Claim C4: the pointer used for a name is a function of the name, the local table and the
answer of `dlsym`: the table is searched in the order stdin, stdout, stderr, __libc_start_main;
when some stored name matches (is a prefix of the name) the binding of the earliest such entry
is used, whatever `dlsym` would answer; the answer of `dlsym` is used only when no entry
matches. -/
theorem reloc_symbol_ptr_local_first (h : Host) (hn : h.nonnull) (s : CStr) (q : List Nat)
    (hq : s.spells q) :
    (symbols h).map (fun e => e.symbol) =
      [chars "stdin", chars "stdout", chars "stderr", chars "__libc_start_main"] ∧
    reloc_symbol_ptr h s =
      (match (symbols h).find? (fun e => e.symbol.isPrefixOf q) with
       | some e => e.ptr
       | none => h.dlsym s) ∧
    (∀ d : CStr → Nat, (∃ e ∈ symbols h, e.symbol <+: q) →
      reloc_symbol_ptr { h with dlsym := d } s = reloc_symbol_ptr h s) := by
  have hf := resolve_in_eq_find (symbols h) s q (symbol_match_iff h s q hq)
  have key : ∀ g : Host, symbols g = symbols h →
      reloc_symbol_ptr g s =
        (match (symbols h).find? (fun e => e.symbol.isPrefixOf q) with
         | some e => e.ptr
         | none => g.dlsym s) := by
    intro g hg
    simp only [reloc_symbol_ptr, resolve_reloc_symbol, hg, hf]
    cases hfind : (symbols h).find? (fun e => e.symbol.isPrefixOf q) with
    | none => simp
    | some e =>
      have hpos := symbols_ptr_pos h hn e (List.mem_of_find?_eq_some hfind)
      simp only
      rw [if_neg (by omega)]
  refine ⟨rfl, key h rfl, ?_⟩
  rintro d ⟨e, he, hp⟩
  rw [key { h with dlsym := d } rfl, key h rfl]
  cases hfind : (symbols h).find? (fun e => e.symbol.isPrefixOf q) with
  | none =>
    exfalso
    rw [List.find?_eq_none] at hfind
    exact hfind e he (List.isPrefixOf_iff_prefix.2 hp)
  | some e => rfl

theorem reloc_symbol_ptr_local_first_witness :
    (CStr.lit (chars "stderr")).spells (chars "stderr") ∧
    reloc_symbol_ptr host_example (CStr.lit (chars "stderr")) = host_example.stderr ∧
    (CStr.lit (chars "puts")).spells (chars "puts") ∧
    reloc_symbol_ptr host_example (CStr.lit (chars "puts")) =
      host_example.dlsym (CStr.lit (chars "puts")) := by
  have hs : (CStr.lit (chars "stderr")).spells (chars "stderr") := by
    unfold CStr.spells CStr.lit; decide
  have hp : (CStr.lit (chars "puts")).spells (chars "puts") := by
    unfold CStr.spells CStr.lit; decide
  refine ⟨hs, ?_, hp, ?_⟩
  · rw [(reloc_symbol_ptr_local_first host_example host_example_nonnull _ _ hs).2.1]
    decide
  · rw [(reloc_symbol_ptr_local_first host_example host_example_nonnull _ _ hp).2.1]
    decide

/-! ## C5 -/

/-- Claim C5: for a queried name `q`, the comparison of `resolve_reloc_symbol` succeeds on a
table entry exactly when the entry's stored name is a prefix of `q` (the length compared is the
stored name's); the result is the binding of the first such entry, and NULL when no stored name
is a prefix of `q`; the query "stdinfoo" returns the binding of "stdin". -/
theorem resolve_reloc_symbol_prefix_match (h : Host) (s : CStr) (q : List Nat)
    (hq : s.spells q) :
    (∀ e ∈ symbols h,
      (strncmp (CStr.lit e.symbol) s (strlen e.symbol) = 0 ↔ e.symbol <+: q)) ∧
    resolve_reloc_symbol h s =
      (match (symbols h).find? (fun e => e.symbol.isPrefixOf q) with
       | some e => e.ptr
       | none => 0) ∧
    ((∀ e ∈ symbols h, ¬ e.symbol <+: q) → resolve_reloc_symbol h s = 0) ∧
    resolve_reloc_symbol h (CStr.lit (chars "stdinfoo")) = h.stdin := by
  have hm := symbol_match_iff h s q hq
  have hf := resolve_in_eq_find (symbols h) s q hm
  refine ⟨hm, hf, ?_, ?_⟩
  · intro hno
    rw [resolve_reloc_symbol, hf]
    have : (symbols h).find? (fun e => e.symbol.isPrefixOf q) = none := by
      rw [List.find?_eq_none]
      intro e he
      simpa [List.isPrefixOf_iff_prefix] using hno e he
    rw [this]
  · simp [resolve_reloc_symbol, symbols, symbols_static, resolve_in, chars, strlen, strncmp, CStr.lit]

theorem resolve_reloc_symbol_prefix_match_witness :
    (CStr.ofMem state_loaded.mem 0x7f0000000301).spells (chars "stdout") ∧
    resolve_reloc_symbol host_example (CStr.ofMem state_loaded.mem 0x7f0000000301) =
      host_example.stdout ∧
    (CStr.ofMem state_loaded.mem 0x7f0000000308).spells (chars "puts") ∧
    resolve_reloc_symbol host_example (CStr.ofMem state_loaded.mem 0x7f0000000308) = 0 := by
  have hs : (CStr.ofMem state_loaded.mem 0x7f0000000301).spells (chars "stdout") := by
    unfold CStr.spells CStr.ofMem; decide
  have hp : (CStr.ofMem state_loaded.mem 0x7f0000000308).spells (chars "puts") := by
    unfold CStr.spells CStr.ofMem; decide
  refine ⟨hs, ?_, hp, ?_⟩
  · rw [(resolve_reloc_symbol_prefix_match host_example _ _ hs).2.1]
    decide
  · rw [(resolve_reloc_symbol_prefix_match host_example _ _ hp).2.1]
    decide

/-! ## C6 -/

/-- Claim C6: when the file was opened and mapped (access and open succeed, the aggregate is
allocated, the mapping call returns a non-null address), `parse_elf` returns a populated image
exactly when the image has the ELF magic, a non-zero `e_phoff`, a PT_DYNAMIC program header
among its `e_phnum` headers, DT_STRTAB and DT_SYMTAB in the dynamic array, and DT_REL or
DT_RELA in it; otherwise it returns failure. -/
theorem parse_elf_accepts_iff (h : Host) (st : State)
    (hacc : h.access_ret ≠ -1) (hopen : 0 ≤ h.open_ret) (hmalloc : h.malloc_ok = true)
    (hmap : (map_file h (st.emit (Event.opened h.open_ret))).1 ≠ 0) :
    ((parse_elf h st).1.isSome = true ↔
      spec_parse_ok (map_file h (st.emit (Event.opened h.open_ret))).2.mem
        (map_file h (st.emit (Event.opened h.open_ret))).1) ∧
    (¬ spec_parse_ok (map_file h (st.emit (Event.opened h.open_ret))).2.mem
        (map_file h (st.emit (Event.opened h.open_ret))).1 → (parse_elf h st).1 = none) := by
  have hiff : (parse_elf h st).1.isSome = true ↔
      spec_parse_ok (map_file h (st.emit (Event.opened h.open_ret))).2.mem
        (map_file h (st.emit (Event.opened h.open_ret))).1 := by
    unfold parse_elf
    rw [if_neg hacc, if_neg (by omega)]
    simp only [hmalloc, not_true_eq_false, if_false]
    rw [if_neg hmap, parse_elf_image_isSome]
    rfl
  refine ⟨hiff, fun hno => ?_⟩
  cases hp : (parse_elf h st).1 with
  | none => rfl
  | some b => exact absurd (hiff.1 (by rw [hp]; rfl)) hno

theorem parse_elf_accepts_iff_witness :
    (parse_elf host_example state_empty).1 = some binary_example ∧
    spec_parse_ok (map_file host_example (state_empty.emit (Event.opened 3))).2.mem
      0x7f0000000000 :=
  ⟨by decide,
   (parse_elf_accepts_iff host_example state_empty (by decide) (by decide) rfl (by decide)).1.1
     (by decide)⟩

/-! ## C7 -/

/-- Claim C7 fails for an empty file: `return_elf_size` yields 0, the mapping call answers
`MAP_FAILED`, which is not null, so `parse_elf` does not return failure: it goes on to read the
ELF header through `MAP_FAILED`, and with ELF-looking bytes there it returns a populated image
without closing the descriptor. -/
theorem parse_elf_empty_file_reads_header :
    return_elf_size host_empty_file = 0 ∧
    (map_file host_empty_file (state_wild.emit (Event.opened 3))).1 = MAP_FAILED ∧
    (parse_elf host_empty_file state_wild).1 =
      some { fd := 3, header := MAP_FAILED, program_header_table := 63,
             relocations := 0x10000400, dynamic_section := 255, dynamic_syms := 511, size := 0,
             dynamic_section_size := 96, memory := MAP_FAILED, dynamic_strtab := 767 } ∧
    (parse_elf host_empty_file state_wild).2.log =
      [Event.opened 3, Event.scratch 0 3 MAP_FAILED] ∧
    (parse_elf host_empty_file state_empty).2.log =
      [Event.opened 3, Event.scratch 0 3 MAP_FAILED, Event.closed 3] := by
  refine ⟨by decide, by decide, by decide, by decide, by decide⟩

/-! ## C8 -/

/-- Claim C8 fails when `malloc` returns NULL: `parse_elf` has opened descriptor 3 and calls
`free_elf(NULL)`, which reads `fd` through the null pointer; `parse_elf` fails, nothing is
mapped or relocated, and descriptor 3 is never closed. -/
theorem parse_elf_malloc_failure_keeps_fd :
    (parse_elf host_no_memory state_empty).1 = none ∧
    (elf_manual_map host_no_memory state_empty).log = [Event.opened 3, Event.fault] ∧
    Event.closed 3 ∉ (elf_manual_map host_no_memory state_empty).log := by
  refine ⟨by decide, by decide, by decide⟩

theorem elf_map_segment_log (h : Host) (fd : Int) (segment : Nat) (st : State) :
    (elf_map_segment h fd segment st).2.log =
      st.log ++ [Event.mapped (segment_address st.mem segment &&& NOT_0xfff)
        ((padd (p_filesz st.mem segment) (segment_address st.mem segment)) &&& NOT_0xfff)
        (segment_protections (p_flags st.mem segment)) (MAP_FILE ||| MAP_PRIVATE ||| MAP_FIXED) fd
        ((p_offset st.mem segment + U64 - (segment_address st.mem segment &&& 0xfff)) % U64)] := by
  simp only [elf_map_segment, State.mmap, State.emit]
  split <;> rfl

theorem elf_map_segment_ret (h : Host) (fd : Int) (segment : Nat) (st : State) :
    (elf_map_segment h fd segment st).1 =
      (if h.mmap (segment_address st.mem segment &&& NOT_0xfff)
        ((padd (p_filesz st.mem segment) (segment_address st.mem segment)) &&& NOT_0xfff)
        (segment_protections (p_flags st.mem segment)) (MAP_FILE ||| MAP_PRIVATE ||| MAP_FIXED) fd
        ((p_offset st.mem segment + U64 - (segment_address st.mem segment &&& 0xfff)) % U64)
          = MAP_FAILED
       then 0 else segment_address st.mem segment &&& NOT_0xfff) := by
  simp only [elf_map_segment, State.mmap, State.emit]
  split <;> rfl

/-! ## C9 -/

/-- Claim C9: the protection set `elf_map_segment` passes to the mapping contains PROT_EXEC
exactly when `p_flags` has PF_X, PROT_WRITE exactly when it has PF_W, PROT_READ exactly when
it has PF_R, holds no other bit, and depends on no other bit of `p_flags`. -/
theorem elf_map_segment_protections (h : Host) (fd : Int) (segment : Nat) (st : State) :
    ∃ addr len prot flags off,
      (elf_map_segment h fd segment st).2.log =
        st.log ++ [Event.mapped addr len prot flags fd off] ∧
      (prot &&& PROT_EXEC ≠ 0 ↔ p_flags st.mem segment &&& PF_X ≠ 0) ∧
      (prot &&& PROT_WRITE ≠ 0 ↔ p_flags st.mem segment &&& PF_W ≠ 0) ∧
      (prot &&& PROT_READ ≠ 0 ↔ p_flags st.mem segment &&& PF_R ≠ 0) ∧
      prot &&& (PROT_EXEC ||| PROT_WRITE ||| PROT_READ) = prot ∧
      prot = segment_protections (p_flags st.mem segment &&& (PF_X ||| PF_W ||| PF_R)) := by
  obtain ⟨hx, hw, hr, hle⟩ := segment_protections_spec (p_flags st.mem segment)
  refine ⟨segment_address st.mem segment &&& NOT_0xfff,
    (padd (p_filesz st.mem segment) (segment_address st.mem segment)) &&& NOT_0xfff,
    segment_protections (p_flags st.mem segment), MAP_FILE ||| MAP_PRIVATE ||| MAP_FIXED,
    (p_offset st.mem segment + U64 - (segment_address st.mem segment &&& 0xfff)) % U64,
    ?_, hx, hw, hr, ?_, ?_⟩
  · exact elf_map_segment_log h fd segment st
  · have h7 : PROT_EXEC ||| PROT_WRITE ||| PROT_READ = 7 := by decide
    rw [h7]
    generalize segment_protections (p_flags st.mem segment) = p at hle
    interval_cases p <;> decide
  · apply segment_protections_low
    have h7 : PF_X ||| PF_W ||| PF_R = 7 := by decide
    rw [h7, Nat.land_assoc]
    rfl

/-! ## C10 -/

/-- Claim C10: with `va = B + p_vaddr` (modulo 2^64), `elf_map_segment` requests one mapping,
at address `va & ~0xFFF`, of length `(p_filesz + va) & ~0xFFF`, at file offset
`p_offset - (va & 0xFFF)` (modulo 2^64); it returns `va & ~0xFFF`, a multiple of 4096, when
the mapping succeeds and NULL when the mapping call answers `MAP_FAILED`. -/
theorem elf_map_segment_request (h : Host) (fd : Int) (segment : Nat) (st : State) :
    ∃ prot flags,
      (elf_map_segment h fd segment st).2.log =
        st.log ++ [Event.mapped
          ((ELF_BASE_ADDR_VAL + p_vaddr st.mem segment) % U64 -
            (ELF_BASE_ADDR_VAL + p_vaddr st.mem segment) % U64 % 4096)
          ((p_filesz st.mem segment + (ELF_BASE_ADDR_VAL + p_vaddr st.mem segment) % U64) % U64 -
            (p_filesz st.mem segment + (ELF_BASE_ADDR_VAL + p_vaddr st.mem segment) % U64) % U64
              % 4096)
          prot flags fd
          ((p_offset st.mem segment + U64 -
            (ELF_BASE_ADDR_VAL + p_vaddr st.mem segment) % U64 % 4096) % U64)] ∧
      (elf_map_segment h fd segment st).1 =
        (if h.mmap
            ((ELF_BASE_ADDR_VAL + p_vaddr st.mem segment) % U64 -
              (ELF_BASE_ADDR_VAL + p_vaddr st.mem segment) % U64 % 4096)
            ((p_filesz st.mem segment + (ELF_BASE_ADDR_VAL + p_vaddr st.mem segment) % U64) % U64 -
              (p_filesz st.mem segment + (ELF_BASE_ADDR_VAL + p_vaddr st.mem segment) % U64) % U64
                % 4096)
            prot flags fd
            ((p_offset st.mem segment + U64 -
              (ELF_BASE_ADDR_VAL + p_vaddr st.mem segment) % U64 % 4096) % U64) = MAP_FAILED
          then 0
          else (ELF_BASE_ADDR_VAL + p_vaddr st.mem segment) % U64 -
            (ELF_BASE_ADDR_VAL + p_vaddr st.mem segment) % U64 % 4096) ∧
      ((ELF_BASE_ADDR_VAL + p_vaddr st.mem segment) % U64 -
        (ELF_BASE_ADDR_VAL + p_vaddr st.mem segment) % U64 % 4096) % 4096 = 0 ∧
      (ELF_BASE_ADDR_VAL + p_vaddr st.mem segment) % U64 -
        (ELF_BASE_ADDR_VAL + p_vaddr st.mem segment) % U64 % 4096 =
          ((ELF_BASE_ADDR_VAL + p_vaddr st.mem segment) % U64) &&& NOT_0xfff := by
  have hva : segment_address st.mem segment = (ELF_BASE_ADDR_VAL + p_vaddr st.mem segment) % U64 := by
    simp only [segment_address, padd, Nat.add_comm]
  have hlt : (ELF_BASE_ADDR_VAL + p_vaddr st.mem segment) % U64 < U64 :=
    Nat.mod_lt _ (by decide)
  have hlt2 : (p_filesz st.mem segment + (ELF_BASE_ADDR_VAL + p_vaddr st.mem segment) % U64) % U64
      < U64 := Nat.mod_lt _ (by decide)
  refine ⟨segment_protections (p_flags st.mem segment), MAP_FILE ||| MAP_PRIVATE ||| MAP_FIXED,
    ?_, ?_, ?_, ?_⟩
  · rw [elf_map_segment_log]
    simp only [hva, padd, and_0xfff, and_NOT_0xfff _ hlt, and_NOT_0xfff _ hlt2]
  · rw [elf_map_segment_ret]
    simp only [hva, padd, and_0xfff, and_NOT_0xfff _ hlt, and_NOT_0xfff _ hlt2]
  · omega
  · rw [and_NOT_0xfff _ hlt]

/-! ## Lemmas for the frame of a relocation entry -/

theorem store64_other (m : Mem) (a v x : Nat) (hx : x < a ∨ a + 8 ≤ x) :
    store64 m a v x = m x := by
  unfold store64
  rw [if_neg (by omega)]

theorem load64_congr (m m2 : Mem) (a : Nat) (hm : ∀ k, k < 8 → m (a + k) = m2 (a + k)) :
    load64 m a = load64 m2 a := by
  have h0 := hm 0 (by omega)
  have h1 := hm 1 (by omega)
  have h2 := hm 2 (by omega)
  have h3 := hm 3 (by omega)
  have h4 := hm 4 (by omega)
  have h5 := hm 5 (by omega)
  have h6 := hm 6 (by omega)
  have h7 := hm 7 (by omega)
  simp only [Nat.add_zero] at h0
  simp only [load64, load32, load16, load8, Nat.add_assoc, Nat.reduceAdd, h0, h1, h2, h3, h4,
    h5, h6, h7]

theorem load32_congr (m m2 : Mem) (a : Nat) (hm : ∀ k, k < 4 → m (a + k) = m2 (a + k)) :
    load32 m a = load32 m2 a := by
  have h0 := hm 0 (by omega)
  have h1 := hm 1 (by omega)
  have h2 := hm 2 (by omega)
  have h3 := hm 3 (by omega)
  simp only [Nat.add_zero] at h0
  simp only [load32, load16, load8, Nat.add_assoc, Nat.reduceAdd, h0, h1, h2, h3]

theorem load16_congr (m m2 : Mem) (a : Nat) (hm : ∀ k, k < 2 → m (a + k) = m2 (a + k)) :
    load16 m a = load16 m2 a := by
  have h0 := hm 0 (by omega)
  have h1 := hm 1 (by omega)
  simp only [Nat.add_zero] at h0
  simp only [load16, load8, h0, h1]

theorem apply_relocation_mem (st : State) (r : Elf64_Rela) (ptr address : Nat) :
    (apply_relocation st r ptr address).mem = st.mem ∨
    ∃ v, (apply_relocation st r ptr address).mem = store64 st.mem address v := by
  unfold apply_relocation
  simp only [State.store]
  split
  · exact Or.inr ⟨_, rfl⟩
  · split
    · exact Or.inr ⟨_, rfl⟩
    · split
      · exact Or.inr ⟨_, rfl⟩
      · split
        · split
          · exact Or.inr ⟨_, rfl⟩
          · exact Or.inr ⟨_, rfl⟩
        · exact Or.inl rfl

theorem apply_relocation_log (st : State) (r : Elf64_Rela) (ptr address : Nat) :
    (apply_relocation st r ptr address).log = st.log ∨
    ∃ v, (apply_relocation st r ptr address).log = st.log ++ [Event.write address v] := by
  unfold apply_relocation
  simp only [State.store]
  split
  · exact Or.inr ⟨_, rfl⟩
  · split
    · exact Or.inr ⟨_, rfl⟩
    · split
      · exact Or.inr ⟨_, rfl⟩
      · split
        · split
          · exact Or.inr ⟨_, rfl⟩
          · exact Or.inr ⟨_, rfl⟩
        · exact Or.inl rfl

theorem relocate_entry_mem_cases (h : Host) (binary : elf_t) (st : State) (entry : Nat) :
    (relocate_entry h binary st entry).mem = st.mem ∨
    ∃ v, (relocate_entry h binary st entry).mem =
      store64 st.mem (reloc_address (Elf64_Rela.read st.mem entry)) v := by
  simp only [relocate_entry]
  split
  · exact Or.inl rfl
  · exact apply_relocation_mem _ _ _ _

theorem relocate_entry_log_cases (h : Host) (binary : elf_t) (st : State) (entry : Nat) :
    (relocate_entry h binary st entry).log = st.log ++ [Event.handled entry] ∨
    ∃ v, (relocate_entry h binary st entry).log =
      st.log ++ [Event.handled entry,
        Event.write (reloc_address (Elf64_Rela.read st.mem entry)) v] := by
  simp only [relocate_entry]
  split
  · exact Or.inl rfl
  · rcases apply_relocation_log (st.emit (Event.handled entry)) (Elf64_Rela.read st.mem entry)
      (reloc_symbol_ptr h (CStr.ofMem st.mem
        (reloc_symbol_name st.mem binary (Elf64_Rela.read st.mem entry))))
      (reloc_address (Elf64_Rela.read st.mem entry)) with hl | ⟨v, hl⟩
    · exact Or.inl (by rw [hl]; rfl)
    · refine Or.inr ⟨v, ?_⟩
      rw [hl]
      simp [State.emit]

theorem handled_entries_relocate_entry (h : Host) (binary : elf_t) (st : State) (entry : Nat) :
    handled_entries (relocate_entry h binary st entry).log = handled_entries st.log ++ [entry] := by
  rcases relocate_entry_log_cases h binary st entry with hl | ⟨v, hl⟩ <;>
    rw [hl] <;> simp [handled_entries, List.filterMap_append]

theorem handled_entries_fold (h : Host) (binary : elf_t) (f : Nat → Nat) (n : Nat) (st : State) :
    handled_entries ((List.range n).foldl (fun s i => relocate_entry h binary s (f i)) st).log =
      handled_entries st.log ++ (List.range n).map f := by
  induction n with
  | zero => simp
  | succ k ih =>
    rw [List.range_succ, List.foldl_append, List.map_append]
    simp only [List.foldl_cons, List.foldl_nil, List.map_cons, List.map_nil]
    rw [handled_entries_relocate_entry, ih, List.append_assoc]

theorem reloc_count_small (s : Nat) (hs : s < 2147483648) : reloc_count (s : Int) = s / 24 := by
  have h1 : ((s : Int) % 18446744073709551616) = (s : Int) :=
    Int.emod_eq_of_lt (by omega) (by omega)
  simp only [reloc_count, toU64, sizeof_Elf64_Rela, h1, Int.toNat_ofNat]

theorem padd_inj (a x y : Nat) (hx : 24 * x < U64) (hy : 24 * y < U64)
    (hxy : padd a (24 * x) = padd a (24 * y)) : x = y := by
  have h1 : a + 24 * x ≡ a + 24 * y [MOD U64] := hxy
  have h2 : 24 * x ≡ 24 * y [MOD U64] := Nat.ModEq.add_left_cancel' a h1
  have h3 : 24 * x = 24 * y := Nat.ModEq.eq_of_lt_of_lt h2 hx hy
  omega

theorem padd_padd (a x y : Nat) : padd (padd a x) y = padd a (x + y) := by
  simp only [padd, Nat.add_assoc, Nat.mod_add_mod]

theorem handled_entries_relocate_data (h : Host) (binary : elf_t) (s : Nat)
    (hs : s < 2147483648) (pltrel : Bool) (st : State) :
    handled_entries (relocate_data h binary (s : Int) pltrel st).log =
      handled_entries st.log ++
        (List.range (s / 24)).map
          (fun i => padd binary.relocations (24 * ((if pltrel then s / 24 else 0) + i))) := by
  unfold relocate_data
  simp only [reloc_count_small s hs, sizeof_Elf64_Rela]
  rw [handled_entries_fold]
  congr 1
  apply List.map_congr_left
  intro i _
  cases pltrel
  · simp
  · simp only [if_true, padd_padd, Nat.mul_add]

/-! ## Lemmas on the parsed views -/

theorem dyn_scan_eq_some (m : Mem) (dyn size type p : Nat) (ht : type ≠ DT_NULL) :
    dyn_scan m dyn size type = some p ↔
      ∃ i, i < size / 16 ∧ p = padd dyn (16 * i) ∧ d_tag m (padd dyn (16 * i)) = type ∧
        ∀ j, j < i → d_tag m (padd dyn (16 * j)) ≠ type := by
  unfold dyn_scan first_index
  rw [Option.map_eq_some']
  simp only [sizeof_Elf64_Dyn]
  constructor
  · rintro ⟨i, hi, rfl⟩
    obtain ⟨_, h2, h3, h4⟩ := (first_from_eq_some _ _ _ _).1 hi
    simp only [Bool.and_eq_true, decide_eq_true_eq] at h3
    refine ⟨i, by omega, rfl, h3.2, fun j hj => ?_⟩
    have := h4 j (Nat.zero_le _) hj
    simp only [Bool.and_eq_false_iff, decide_eq_false_iff_not, not_not] at this
    rcases this with h0 | hne
    · rw [h0]; exact fun hc => ht hc.symm
    · exact hne
  · rintro ⟨i, hi, rfl, h3, h4⟩
    refine ⟨i, (first_from_eq_some _ _ _ _).2 ⟨Nat.zero_le _, by omega, ?_, ?_⟩, rfl⟩
    · simp only [Bool.and_eq_true, decide_eq_true_eq]
      exact ⟨by rw [h3]; exact ht, h3⟩
    · intro l _ hl
      simp only [Bool.and_eq_false_iff, decide_eq_false_iff_not]
      exact Or.inr (h4 l hl)

theorem dyn_scan_null (m : Mem) (dyn size : Nat) : dyn_scan m dyn size DT_NULL = none := by
  unfold dyn_scan first_index
  rw [Option.map_eq_none', first_from_eq_none]
  intro l _ _
  simp only [Bool.and_eq_false_iff, decide_eq_false_iff_not, not_not]
  by_cases h0 : d_tag m (padd dyn (sizeof_Elf64_Dyn * l)) = DT_NULL
  · exact Or.inl h0
  · exact Or.inr h0

theorem parse_elf_image_some (b0 : elf_t) (st : State) (b : elf_t)
    (hb : (parse_elf_image b0 st).1 = some b) :
    b.memory = b0.memory ∧
    ∃ s y r,
      dyn_scan st.mem b.dynamic_section b.dynamic_section_size DT_STRTAB = some s ∧
      dyn_scan st.mem b.dynamic_section b.dynamic_section_size DT_SYMTAB = some y ∧
      (dyn_scan st.mem b.dynamic_section b.dynamic_section_size DT_REL).orElse
        (fun _ => dyn_scan st.mem b.dynamic_section b.dynamic_section_size DT_RELA) = some r ∧
      b.dynamic_strtab = padd b0.memory (d_un st.mem s) ∧
      b.dynamic_syms = padd b0.memory (d_un st.mem y) ∧
      b.relocations = padd (d_un st.mem r) ELF_BASE_ADDR_VAL := by
  unfold parse_elf_image at hb
  simp only [resolve_elf_phdr, resolve_elf_dyn] at hb
  split at hb
  · cases hb
  · split at hb
    · cases hb
    · split at hb
      · cases hb
      · split at hb
        · rename_i s y hs hy
          split at hb
          · cases hb
          · rename_i r hr
            simp only [Option.some.injEq] at hb
            subst hb
            exact ⟨rfl, s, y, r, hs, hy, hr, rfl, rfl, rfl⟩
        · cases hb

theorem parse_elf_some (h : Host) (st : State) (b : elf_t) (hb : (parse_elf h st).1 = some b) :
    (parse_elf_image
      (elf_t.fresh h.open_ret (return_elf_size h)
        (map_file h (st.emit (Event.opened h.open_ret))).1)
      (map_file h (st.emit (Event.opened h.open_ret))).2).1 = some b := by
  unfold parse_elf at hb
  split at hb
  · cases hb
  · split at hb
    · cases hb
    · simp only at hb
      split at hb
      · cases hb
      · split at hb
        · cases hb
        · exact hb

/-! ## Lemmas on the bytes `parse_elf` reads -/

theorem padd_eq_or (a b : Nat) : padd a b = a + b ∨ padd a b + U64 ≤ a + b := by
  unfold padd
  have hd := Nat.div_add_mod (a + b) U64
  rcases Nat.eq_zero_or_pos ((a + b) / U64) with h0 | hpos
  · left
    rw [h0, Nat.mul_zero, Nat.zero_add] at hd
    exact hd
  · right
    have : U64 ≤ U64 * ((a + b) / U64) := Nat.le_mul_of_pos_right _ hpos
    omega

theorem header_off_ident (image off k : Nat) (hoff : 20 ≤ off ∨ off + k < 4)
    (hk : off + k < 64) : off_ident image (padd image off + k) := by
  intro d hd
  have hd2 : d < 20 ∧ 4 ≤ d := by
    simp only [ident_offsets, List.mem_cons, List.mem_singleton, List.not_mem_nil, or_false] at hd
    omega
  have hU : U64 = 18446744073709551616 := rfl
  rcases padd_eq_or image off with h | h <;> omega

/-- Memories that agree away from the identification bytes of the image at `image`. -/
theorem map_file_agree (h : Host) (f : Nat → Nat) (st : State)
    (hf : ∀ k, k ∉ ident_offsets → f k = h.file k) :
    (map_file { h with file := f } st).1 = (map_file h st).1 ∧
    ∀ x, off_ident (map_file h st).1 x →
      (map_file { h with file := f } st).2.mem x = (map_file h st).2.mem x := by
  have hsz : return_elf_size { h with file := f } = return_elf_size h := rfl
  simp only [map_file, State.mmap, State.emit, hsz]
  generalize return_elf_size h = len
  by_cases hr : h.mmap 0 len (PROT_READ ||| PROT_WRITE ||| PROT_EXEC) MAP_PRIVATE h.open_ret 0 =
      MAP_FAILED
  · rw [if_pos hr, if_pos hr]
    exact ⟨rfl, fun _ _ => rfl⟩
  · rw [if_neg hr, if_neg hr]
    refine ⟨rfl, fun x hx => ?_⟩
    show install st.mem f _ len 0 x = install st.mem h.file _ len 0 x
    simp only [install]
    split
    · apply hf
      intro hmem
      have := hx _ hmem
      omega
    · rfl

theorem dyn_contains_congr (m m2 : Mem) (dyn n tag : Nat)
    (hm : ∀ j, j < n → d_tag m (padd dyn (16 * j)) = d_tag m2 (padd dyn (16 * j))) :
    dyn_contains m dyn n tag ↔ dyn_contains m2 dyn n tag := by
  unfold dyn_contains
  constructor
  · rintro ⟨j, hj, ht⟩; exact ⟨j, hj, by rw [← hm j hj]; exact ht⟩
  · rintro ⟨j, hj, ht⟩; exact ⟨j, hj, by rw [hm j hj]; exact ht⟩

theorem spec_parse_ok_mono (m m2 : Mem) (image : Nat)
    (h0 : ∀ i, i < 4 → e_ident m image i = e_ident m2 image i)
    (hoff : e_phoff m image = e_phoff m2 image)
    (hnum : e_phnum m image = e_phnum m2 image)
    (hph : ∀ i, i < e_phnum m image →
      p_type m (padd (padd image (e_phoff m image)) (56 * i)) =
        p_type m2 (padd (padd image (e_phoff m image)) (56 * i)) ∧
      p_offset m (padd (padd image (e_phoff m image)) (56 * i)) =
        p_offset m2 (padd (padd image (e_phoff m image)) (56 * i)) ∧
      p_memsz m (padd (padd image (e_phoff m image)) (56 * i)) =
        p_memsz m2 (padd (padd image (e_phoff m image)) (56 * i)))
    (hdyn : ∀ i, i < e_phnum m image →
      p_type m (padd (padd image (e_phoff m image)) (56 * i)) = PT_DYNAMIC →
      ∀ j, j < p_memsz m (padd (padd image (e_phoff m image)) (56 * i)) / 16 →
        d_tag m (padd (padd image (p_offset m (padd (padd image (e_phoff m image)) (56 * i))))
          (16 * j)) =
        d_tag m2 (padd (padd image (p_offset m (padd (padd image (e_phoff m image)) (56 * i))))
          (16 * j)))
    (hok : spec_parse_ok m image) : spec_parse_ok m2 image := by
  obtain ⟨a0, a1, a2, a3, a5, i, hi, hpt, hfirst, hS, hY, hRA⟩ := hok
  have e0 := h0 0 (by omega)
  have e1 := h0 1 (by omega)
  have e2 := h0 2 (by omega)
  have e3 := h0 3 (by omega)
  obtain ⟨pt, po, pm⟩ := hph i hi
  have hd := hdyn i hi hpt
  have hc := fun tag => dyn_contains_congr m m2
    (padd image (p_offset m (padd (padd image (e_phoff m image)) (56 * i))))
    (p_memsz m (padd (padd image (e_phoff m image)) (56 * i)) / 16) tag hd
  unfold spec_parse_ok
  rw [← e0, ← e1, ← e2, ← e3, ← hoff, ← hnum]
  refine ⟨a0, a1, a2, a3, a5, i, hi, ?_⟩
  rw [← po, ← pm, ← pt]
  refine ⟨hpt, ?_, (hc _).1 hS, (hc _).1 hY, ?_⟩
  · intro j hj
    rw [← (hph j (by omega)).1]
    exact hfirst j hj
  · rcases hRA with hR | hA
    · exact Or.inl ((hc _).1 hR)
    · exact Or.inr ((hc _).1 hA)

theorem spec_parse_ok_iff (m m2 : Mem) (image : Nat)
    (h0 : ∀ i, i < 4 → e_ident m image i = e_ident m2 image i)
    (hoff : e_phoff m image = e_phoff m2 image)
    (hnum : e_phnum m image = e_phnum m2 image)
    (hph : ∀ i, i < e_phnum m image →
      p_type m (padd (padd image (e_phoff m image)) (56 * i)) =
        p_type m2 (padd (padd image (e_phoff m image)) (56 * i)) ∧
      p_offset m (padd (padd image (e_phoff m image)) (56 * i)) =
        p_offset m2 (padd (padd image (e_phoff m image)) (56 * i)) ∧
      p_memsz m (padd (padd image (e_phoff m image)) (56 * i)) =
        p_memsz m2 (padd (padd image (e_phoff m image)) (56 * i)))
    (hdyn : ∀ i, i < e_phnum m image →
      p_type m (padd (padd image (e_phoff m image)) (56 * i)) = PT_DYNAMIC →
      ∀ j, j < p_memsz m (padd (padd image (e_phoff m image)) (56 * i)) / 16 →
        d_tag m (padd (padd image (p_offset m (padd (padd image (e_phoff m image)) (56 * i))))
          (16 * j)) =
        d_tag m2 (padd (padd image (p_offset m (padd (padd image (e_phoff m image)) (56 * i))))
          (16 * j))) :
    spec_parse_ok m image ↔ spec_parse_ok m2 image := by
  refine ⟨spec_parse_ok_mono m m2 image h0 hoff hnum hph hdyn,
    spec_parse_ok_mono m2 m image (fun i hi => (h0 i hi).symm) hoff.symm hnum.symm ?_ ?_⟩
  · intro i hi
    rw [← hoff]
    rw [← hnum] at hi
    obtain ⟨pt, po, pm⟩ := hph i hi
    exact ⟨pt.symm, po.symm, pm.symm⟩
  · intro i hi
    rw [← hoff]
    rw [← hnum] at hi
    obtain ⟨pt, po, pm⟩ := hph i hi
    rw [← pt, ← po, ← pm]
    intro hpt j hj
    exact (hdyn i hi hpt j hj).symm

theorem reads_agree (m m2 : Mem) (image : Nat)
    (hag : ∀ x, off_ident image x → m2 x = m x) (hclear : reads_off_ident m image) :
    (∀ i, i < 4 → e_ident m image i = e_ident m2 image i) ∧
    e_phoff m image = e_phoff m2 image ∧
    e_phnum m image = e_phnum m2 image ∧
    (∀ i, i < e_phnum m image →
      p_type m (padd (padd image (e_phoff m image)) (56 * i)) =
        p_type m2 (padd (padd image (e_phoff m image)) (56 * i)) ∧
      p_offset m (padd (padd image (e_phoff m image)) (56 * i)) =
        p_offset m2 (padd (padd image (e_phoff m image)) (56 * i)) ∧
      p_memsz m (padd (padd image (e_phoff m image)) (56 * i)) =
        p_memsz m2 (padd (padd image (e_phoff m image)) (56 * i))) ∧
    (∀ i, i < e_phnum m image →
      p_type m (padd (padd image (e_phoff m image)) (56 * i)) = PT_DYNAMIC →
      ∀ j, j < p_memsz m (padd (padd image (e_phoff m image)) (56 * i)) / 16 →
        d_tag m (padd (padd image (p_offset m (padd (padd image (e_phoff m image)) (56 * i))))
          (16 * j)) =
        d_tag m2 (padd (padd image (p_offset m (padd (padd image (e_phoff m image)) (56 * i))))
          (16 * j))) := by
  refine ⟨?_, ?_, ?_, ?_, ?_⟩
  · intro i hi
    have := hag _ (header_off_ident image i 0 (Or.inr (by omega)) (by omega))
    simp only [e_ident, load8]
    rw [Nat.add_zero] at this
    rw [this]
  · exact load64_congr _ _ _ (fun k hk =>
      (hag _ (header_off_ident image 32 k (Or.inl (by omega)) (by omega))).symm)
  · exact load16_congr _ _ _ (fun k hk =>
      (hag _ (header_off_ident image 56 k (Or.inl (by omega)) (by omega))).symm)
  · intro i hi
    obtain ⟨c1, c2, c3, _⟩ := hclear i hi
    exact ⟨load32_congr _ _ _ (fun k hk => (hag _ (c1 k hk)).symm),
      load64_congr _ _ _ (fun k hk => (hag _ (c2 k hk)).symm),
      load64_congr _ _ _ (fun k hk => (hag _ (c3 k hk)).symm)⟩
  · intro i hi hpt j hj
    obtain ⟨_, _, _, c4⟩ := hclear i hi
    exact load64_congr _ _ _ (fun k hk => (hag _ (c4 hpt j hj k hk)).symm)

/-! ## C11 -/

/-- Claim C11: handling a relocation entry changes no byte of memory outside the eight bytes
of the 64-bit word at `B + r_offset`, whatever the relocation type: every 64-bit word that
shares no byte with that word has the same value afterwards, and the only store the entry can
perform is one store to `B + r_offset`. -/
theorem relocate_entry_frame (h : Host) (binary : elf_t) (st : State) (entry : Nat) :
    (∀ x, x < reloc_address (Elf64_Rela.read st.mem entry) ∨
        reloc_address (Elf64_Rela.read st.mem entry) + 8 ≤ x →
      (relocate_entry h binary st entry).mem x = st.mem x) ∧
    (∀ a, a + 8 ≤ reloc_address (Elf64_Rela.read st.mem entry) ∨
        reloc_address (Elf64_Rela.read st.mem entry) + 8 ≤ a →
      load64 (relocate_entry h binary st entry).mem a = load64 st.mem a) ∧
    ((relocate_entry h binary st entry).log = st.log ++ [Event.handled entry] ∨
      ∃ v, (relocate_entry h binary st entry).log =
        st.log ++ [Event.handled entry,
          Event.write (reloc_address (Elf64_Rela.read st.mem entry)) v]) := by
  have hbyte : ∀ x, x < reloc_address (Elf64_Rela.read st.mem entry) ∨
        reloc_address (Elf64_Rela.read st.mem entry) + 8 ≤ x →
      (relocate_entry h binary st entry).mem x = st.mem x := by
    intro x hx
    rcases relocate_entry_mem_cases h binary st entry with hm | ⟨v, hm⟩
    · rw [hm]
    · rw [hm, store64_other _ _ _ _ hx]
  refine ⟨hbyte, ?_, relocate_entry_log_cases h binary st entry⟩
  intro a ha
  apply load64_congr
  intro k hk
  exact hbyte (a + k) (by omega)

theorem relocate_entry_frame_witness :
    reloc_address (Elf64_Rela.read state_loaded.mem 0x10000400) = 0x10003000 ∧
    load64 (relocate_entry host_example binary_example state_loaded 0x10000400).mem 0x10000408 =
      load64 state_loaded.mem 0x10000408 ∧
    load64 (relocate_entry host_example binary_example state_loaded 0x10000400).mem 0x10003000 ≠
      load64 state_loaded.mem 0x10003000 :=
  ⟨by decide,
   (relocate_entry_frame host_example binary_example state_loaded 0x10000400).2.1 0x10000408
     (Or.inl (by decide)),
   by decide⟩

/-! ## C12 -/

/-- Claim C12: an entry whose symbol name is the empty string is skipped, whatever its
relocation type: the state after the entry is the state before it with only the entry recorded
as handled, so memory (the word at `B + r_offset` included) is unchanged, nothing is stored,
and the result does not depend on the resolver. -/
theorem relocate_entry_empty_name (h : Host) (binary : elf_t) (st : State) (entry : Nat)
    (hempty : load8 st.mem (reloc_symbol_name st.mem binary (Elf64_Rela.read st.mem entry)) = 0) :
    relocate_entry h binary st entry = st.emit (Event.handled entry) ∧
    (relocate_entry h binary st entry).mem = st.mem ∧
    load64 (relocate_entry h binary st entry).mem (reloc_address (Elf64_Rela.read st.mem entry)) =
      load64 st.mem (reloc_address (Elf64_Rela.read st.mem entry)) ∧
    (∀ g : Host, relocate_entry g binary st entry = relocate_entry h binary st entry) := by
  have key : ∀ g : Host, relocate_entry g binary st entry = st.emit (Event.handled entry) := by
    intro g
    simp only [relocate_entry]
    rw [if_pos hempty]
  refine ⟨key h, ?_, ?_, fun g => ?_⟩
  · rw [key h]; rfl
  · rw [key h]; rfl
  · rw [key g, key h]

theorem relocate_entry_empty_name_witness :
    ELF64_R_TYPE (Elf64_Rela.read state_loaded.mem 0x10000418).r_info = R_X86_64_RELATIVE ∧
    (relocate_entry host_example binary_example state_loaded 0x10000418).log =
      state_loaded.log ++ [Event.handled 0x10000418] := by
  refine ⟨by decide, ?_⟩
  rw [(relocate_entry_empty_name host_example binary_example state_loaded 0x10000418
    (by decide)).1]
  rfl

/-! ## C13 -/

/-- Claim C13: for a host command line of `argc ≥ 2` strings, `main` stores `argc - 1` and the
vector starting at `argv[1]` in `cmdline_argc`, `cmdline_argv` and then runs the loader in that
process; the shim, whatever `argc`, `argv` it receives, calls `entry` with
`(argc - 1, [argv[1], ..., argv[argc-1]], NULL)` and passes the value `entry` returns to `exit`.
For `["./loader", "./guest", "a", "b"]` the guest gets `argc = 3` and
`argv = ["./guest", "a", "b"]`. -/
theorem main_relays_argv (h : Host) (argv : List String) (p : Process)
    (hargc : 2 ≤ argv.length) :
    (main h (argv.length : Int) argv p).1 = EXIT_SUCCESS ∧
    (main h (argv.length : Int) argv p).2 =
      run_loader h
        { cmdline_argc := (argv.length : Int) - 1, cmdline_argv := argv.drop 1,
          stderr := p.stderr ++ ["Usage: " ++ argv.headD "" ++ " <elf> <args>\n\n"],
          st := p.st } ∧
    (main h (argv.length : Int) argv p).2.cmdline_argc = (argv.length : Int) - 1 ∧
    (main h (argv.length : Int) argv p).2.cmdline_argv = argv.drop 1 ∧
    (argv.drop 1).length + 1 = argv.length ∧
    (∀ i, i + 1 < argv.length → (argv.drop 1)[i]? = argv[i + 1]?) ∧
    (∀ (entry : Int → List String → Option (List String) → Int) (a : Int) (v : List String),
      __libc_start_main_impl (main h (argv.length : Int) argv p).2 entry a v =
        { status := entry ((argv.length : Int) - 1) (argv.drop 1) none }) ∧
    (["./loader", "./guest", "a", "b"].length : Int) - 1 = 3 ∧
    ["./loader", "./guest", "a", "b"].drop 1 = ["./guest", "a", "b"] := by
  have hlt : ¬ ((argv.length : Int) < 2) := by omega
  have hmain : main h (argv.length : Int) argv p =
      (EXIT_SUCCESS, run_loader h
        { cmdline_argc := (argv.length : Int) - 1, cmdline_argv := argv.drop 1,
          stderr := p.stderr ++ ["Usage: " ++ argv.headD "" ++ " <elf> <args>\n\n"],
          st := p.st }) := by
    simp only [main]
    rw [if_neg hlt]
  refine ⟨by rw [hmain], by rw [hmain], by rw [hmain]; rfl, by rw [hmain]; rfl, ?_, ?_, ?_,
    by decide, by decide⟩
  · rw [List.length_drop]; omega
  · intro i _
    rw [List.getElem?_drop, Nat.add_comm]
  · intro entry a v
    rw [hmain]
    rfl

theorem main_relays_argv_witness :
    (main host_example 4 ["./loader", "./guest", "a", "b"] process_start).2.cmdline_argc = 3 ∧
    (main host_example 4 ["./loader", "./guest", "a", "b"] process_start).2.cmdline_argv =
      ["./guest", "a", "b"] ∧
    __libc_start_main_impl (main host_example 4 ["./loader", "./guest", "a", "b"] process_start).2
      (fun argc argv _ => argc + argv.length) 0 [] = { status := 6 } := by
  have hw := main_relays_argv host_example ["./loader", "./guest", "a", "b"] process_start
    (by decide)
  exact ⟨hw.2.2.1, hw.2.2.2.1, hw.2.2.2.2.2.2.1 (fun argc argv _ => argc + argv.length) 0 []⟩

/-! ## C14 -/

/-- Claim C14, as stated for every tag, fails for the tag DT_NULL: the guest's dynamic array
ends with an entry of tag 0 (index 5 of 6), yet `resolve_elf_dyn` returns nothing for tag 0,
because its loop only accepts entries whose tag is not DT_NULL. -/
theorem resolve_elf_dyn_null_tag_not_found :
    ¬ (∀ (m : Mem) (binary : elf_t) (type : Nat),
        (∀ p, resolve_elf_dyn m binary type = some p ↔
          ∃ i, i < binary.dynamic_section_size / 16 ∧
            p = padd binary.dynamic_section (16 * i) ∧
            d_tag m (padd binary.dynamic_section (16 * i)) = type ∧
            ∀ j, j < i → d_tag m (padd binary.dynamic_section (16 * j)) ≠ type) ∧
        (resolve_elf_dyn m binary type = none ↔
          ∀ i, i < binary.dynamic_section_size / 16 →
            d_tag m (padd binary.dynamic_section (16 * i)) ≠ type)) := by
  intro hall
  have h1 := (hall state_loaded.mem binary_example DT_NULL).2.1
    (dyn_scan_null _ _ _) 5 (by decide)
  revert h1
  decide

/-- Claim C14 (amended): for every dynamic array and every tag other than DT_NULL,
`resolve_elf_dyn` returns the address of the first entry, among the
`dynamic_section_size / sizeof(Elf64_Dyn)` entries, whose `d_tag` is the requested tag, and
returns nothing exactly when no entry in that range has the tag; for DT_NULL it returns
nothing. -/
theorem resolve_elf_dyn_first (m : Mem) (binary : elf_t) (type : Nat) :
    (type ≠ DT_NULL →
      (∀ p, resolve_elf_dyn m binary type = some p ↔
        ∃ i, i < binary.dynamic_section_size / 16 ∧
          p = padd binary.dynamic_section (16 * i) ∧
          d_tag m (padd binary.dynamic_section (16 * i)) = type ∧
          ∀ j, j < i → d_tag m (padd binary.dynamic_section (16 * j)) ≠ type) ∧
      (resolve_elf_dyn m binary type = none ↔
        ∀ i, i < binary.dynamic_section_size / 16 →
          d_tag m (padd binary.dynamic_section (16 * i)) ≠ type)) ∧
    resolve_elf_dyn m binary DT_NULL = none := by
  refine ⟨fun ht => ⟨fun p => dyn_scan_eq_some _ _ _ _ _ ht, ?_⟩, dyn_scan_null _ _ _⟩
  unfold resolve_elf_dyn
  rw [dyn_scan_eq_none _ _ _ _ ht]
  unfold dyn_contains
  constructor
  · intro hno i hi hc
    exact hno ⟨i, hi, hc⟩
  · rintro hall ⟨i, hi, hc⟩
    exact hall i hi hc

theorem resolve_elf_dyn_first_witness :
    resolve_elf_dyn state_loaded.mem binary_example DT_RELASZ = some 0x7f0000000130 ∧
    ∃ i, i < binary_example.dynamic_section_size / 16 ∧
      0x7f0000000130 = padd binary_example.dynamic_section (16 * i) ∧
      d_tag state_loaded.mem (padd binary_example.dynamic_section (16 * i)) = DT_RELASZ ∧
      ∀ j, j < i → d_tag state_loaded.mem (padd binary_example.dynamic_section (16 * j)) ≠
        DT_RELASZ :=
  ⟨by decide,
   ((resolve_elf_dyn_first state_loaded.mem binary_example DT_RELASZ).1 (by decide)).1
     0x7f0000000130 |>.1 (by decide)⟩

/-! ## C15 -/

/-- Claim C15: on a successful parse the string-table and symbol-table views are
`image + d_ptr` of the first DT_STRTAB and the first DT_SYMTAB entry (no bias), and the
relocation-table view is `B + d_ptr` (in 64-bit arithmetic), with `d_ptr` taken from the first
DT_REL entry when the dynamic array has one and from the first DT_RELA entry only when it has
no DT_REL entry. -/
theorem parse_elf_views (h : Host) (st : State) (b : elf_t)
    (hb : (parse_elf h st).1 = some b) :
    b.memory = (map_file h (st.emit (Event.opened h.open_ret))).1 ∧
    (∃ i, i < b.dynamic_section_size / 16 ∧
      d_tag (map_file h (st.emit (Event.opened h.open_ret))).2.mem
        (padd b.dynamic_section (16 * i)) = DT_STRTAB ∧
      (∀ j, j < i → d_tag (map_file h (st.emit (Event.opened h.open_ret))).2.mem
        (padd b.dynamic_section (16 * j)) ≠ DT_STRTAB) ∧
      b.dynamic_strtab = padd b.memory
        (d_un (map_file h (st.emit (Event.opened h.open_ret))).2.mem
          (padd b.dynamic_section (16 * i)))) ∧
    (∃ i, i < b.dynamic_section_size / 16 ∧
      d_tag (map_file h (st.emit (Event.opened h.open_ret))).2.mem
        (padd b.dynamic_section (16 * i)) = DT_SYMTAB ∧
      (∀ j, j < i → d_tag (map_file h (st.emit (Event.opened h.open_ret))).2.mem
        (padd b.dynamic_section (16 * j)) ≠ DT_SYMTAB) ∧
      b.dynamic_syms = padd b.memory
        (d_un (map_file h (st.emit (Event.opened h.open_ret))).2.mem
          (padd b.dynamic_section (16 * i)))) ∧
    ((∃ i, i < b.dynamic_section_size / 16 ∧
        d_tag (map_file h (st.emit (Event.opened h.open_ret))).2.mem
          (padd b.dynamic_section (16 * i)) = DT_REL ∧
        (∀ j, j < i → d_tag (map_file h (st.emit (Event.opened h.open_ret))).2.mem
          (padd b.dynamic_section (16 * j)) ≠ DT_REL) ∧
        b.relocations = padd
          (d_un (map_file h (st.emit (Event.opened h.open_ret))).2.mem
            (padd b.dynamic_section (16 * i))) ELF_BASE_ADDR_VAL) ∨
     ((∀ i, i < b.dynamic_section_size / 16 →
        d_tag (map_file h (st.emit (Event.opened h.open_ret))).2.mem
          (padd b.dynamic_section (16 * i)) ≠ DT_REL) ∧
      ∃ i, i < b.dynamic_section_size / 16 ∧
        d_tag (map_file h (st.emit (Event.opened h.open_ret))).2.mem
          (padd b.dynamic_section (16 * i)) = DT_RELA ∧
        (∀ j, j < i → d_tag (map_file h (st.emit (Event.opened h.open_ret))).2.mem
          (padd b.dynamic_section (16 * j)) ≠ DT_RELA) ∧
        b.relocations = padd
          (d_un (map_file h (st.emit (Event.opened h.open_ret))).2.mem
            (padd b.dynamic_section (16 * i))) ELF_BASE_ADDR_VAL)) := by
  obtain ⟨hmem, s, y, r, hs, hy, hr, hst, hsy, hrel⟩ :=
    parse_elf_image_some _ _ b (parse_elf_some h st b hb)
  have hmem2 : b.memory = (map_file h (st.emit (Event.opened h.open_ret))).1 := hmem
  rw [← hmem2] at hst hsy
  obtain ⟨i, hi, rfl, hti, hfi⟩ := (dyn_scan_eq_some _ _ _ _ _ (by decide)).1 hs
  obtain ⟨k, hk, rfl, htk, hfk⟩ := (dyn_scan_eq_some _ _ _ _ _ (by decide)).1 hy
  refine ⟨hmem2, ⟨i, hi, hti, hfi, hst⟩, ⟨k, hk, htk, hfk, hsy⟩, ?_⟩
  cases hR : dyn_scan (map_file h (st.emit (Event.opened h.open_ret))).2.mem b.dynamic_section
      b.dynamic_section_size DT_REL with
  | some r1 =>
    rw [hR] at hr
    simp only [Option.orElse, Option.some.injEq] at hr
    subst hr
    obtain ⟨l, hl, rfl, htl, hfl⟩ := (dyn_scan_eq_some _ _ _ _ _ (by decide)).1 hR
    exact Or.inl ⟨l, hl, htl, hfl, hrel⟩
  | none =>
    rw [hR] at hr
    simp only [Option.orElse] at hr
    obtain ⟨l, hl, rfl, htl, hfl⟩ := (dyn_scan_eq_some _ _ _ _ _ (by decide)).1 hr
    have hnone := (dyn_scan_eq_none _ _ _ _ (by decide)).1 hR
    exact Or.inr ⟨fun i hi hc => hnone ⟨i, hi, hc⟩, l, hl, htl, hfl, hrel⟩

theorem parse_elf_views_witness :
    binary_example.dynamic_strtab = 0x7f0000000000 + 0x300 ∧
    binary_example.dynamic_syms = 0x7f0000000000 + 0x200 ∧
    binary_example.relocations = ELF_BASE_ADDR_VAL + 0x400 ∧
    binary_example.memory = (map_file host_example (state_empty.emit (Event.opened 3))).1 :=
  ⟨by decide, by decide, by decide,
   (parse_elf_views host_example state_empty binary_example (by decide)).1⟩

/-! ## C16 -/

/-- Claim C16: when `B + p_vaddr + p_filesz < 2^64`, with `va = B + p_vaddr`, the range
`[va & ~0xFFF, (va & ~0xFFF) + ((p_filesz + va) & ~0xFFF))` that `elf_map_segment` requests
contains the whole range `[va, va + p_filesz)`. -/
theorem elf_map_segment_covers (h : Host) (fd : Int) (segment : Nat) (st : State)
    (hnowrap : ELF_BASE_ADDR_VAL + p_vaddr st.mem segment + p_filesz st.mem segment < U64) :
    ∃ addr len prot flags off,
      (elf_map_segment h fd segment st).2.log =
        st.log ++ [Event.mapped addr len prot flags fd off] ∧
      addr = (ELF_BASE_ADDR_VAL + p_vaddr st.mem segment) &&& NOT_0xfff ∧
      len = (p_filesz st.mem segment + (ELF_BASE_ADDR_VAL + p_vaddr st.mem segment)) &&&
        NOT_0xfff ∧
      addr ≤ ELF_BASE_ADDR_VAL + p_vaddr st.mem segment ∧
      ELF_BASE_ADDR_VAL + p_vaddr st.mem segment + p_filesz st.mem segment ≤ addr + len := by
  have hva : segment_address st.mem segment = ELF_BASE_ADDR_VAL + p_vaddr st.mem segment := by
    simp only [segment_address, padd]
    rw [Nat.add_comm, Nat.mod_eq_of_lt (by omega)]
  have hs : padd (p_filesz st.mem segment) (ELF_BASE_ADDR_VAL + p_vaddr st.mem segment) =
      p_filesz st.mem segment + (ELF_BASE_ADDR_VAL + p_vaddr st.mem segment) := by
    simp only [padd]
    rw [Nat.mod_eq_of_lt (by omega)]
  have hB : ELF_BASE_ADDR_VAL = 268435456 := rfl
  refine ⟨_, _, _, _, _, elf_map_segment_log h fd segment st, by rw [hva], by rw [hva, hs], ?_, ?_⟩
  · rw [hva, and_NOT_0xfff _ (by omega)]
    omega
  · rw [hva, hs, and_NOT_0xfff _ (by omega), and_NOT_0xfff _ (by omega)]
    omega

theorem elf_map_segment_covers_witness :
    ∃ addr len prot flags off,
      (elf_map_segment host_example 3 0x1000 state_segment).2.log =
        state_segment.log ++ [Event.mapped addr len prot flags 3 off] ∧
      addr = (ELF_BASE_ADDR_VAL + p_vaddr state_segment.mem 0x1000) &&& NOT_0xfff ∧
      len = (p_filesz state_segment.mem 0x1000 +
        (ELF_BASE_ADDR_VAL + p_vaddr state_segment.mem 0x1000)) &&& NOT_0xfff ∧
      addr ≤ ELF_BASE_ADDR_VAL + p_vaddr state_segment.mem 0x1000 ∧
      ELF_BASE_ADDR_VAL + p_vaddr state_segment.mem 0x1000 +
        p_filesz state_segment.mem 0x1000 ≤ addr + len :=
  elf_map_segment_covers host_example 3 0x1000 state_segment (by decide)

/-! ## C17 -/

/-- Claim C17: when `p_offset ≥ (p_vaddr & 0xFFF)`, the file offset `elf_map_segment` passes to
the mapping, `p_offset - ((B + p_vaddr) & 0xFFF)`, equals `p_offset - (p_vaddr & 0xFFF)`, and it
is a multiple of 4096 exactly when `p_offset` and `p_vaddr` are congruent modulo 4096. -/
theorem elf_map_segment_offset (h : Host) (fd : Int) (segment : Nat) (st : State)
    (hoff : p_vaddr st.mem segment &&& 0xfff ≤ p_offset st.mem segment) :
    ∃ addr len prot flags off,
      (elf_map_segment h fd segment st).2.log =
        st.log ++ [Event.mapped addr len prot flags fd off] ∧
      off = p_offset st.mem segment - (p_vaddr st.mem segment &&& 0xfff) ∧
      (off % 4096 = 0 ↔ p_offset st.mem segment % 4096 = p_vaddr st.mem segment % 4096) := by
  have hlt : p_offset st.mem segment < U64 := load64_lt _ _
  have hU : U64 = 18446744073709551616 := rfl
  have hlow : segment_address st.mem segment &&& 0xfff = p_vaddr st.mem segment % 4096 := by
    rw [and_0xfff]
    simp only [segment_address, padd, ELF_BASE_ADDR_VAL, U64]
    omega
  rw [and_0xfff] at hoff
  have hval : (p_offset st.mem segment + U64 - (segment_address st.mem segment &&& 0xfff)) % U64 =
      p_offset st.mem segment - (p_vaddr st.mem segment &&& 0xfff) := by
    rw [hlow, and_0xfff, hU]
    omega
  refine ⟨_, _, _, _, _, elf_map_segment_log h fd segment st, hval, ?_⟩
  rw [hval, and_0xfff]
  omega

theorem elf_map_segment_offset_witness :
    ∃ addr len prot flags off,
      (elf_map_segment host_example 3 0x1000 state_segment).2.log =
        state_segment.log ++ [Event.mapped addr len prot flags 3 off] ∧
      off = p_offset state_segment.mem 0x1000 -
        (p_vaddr state_segment.mem 0x1000 &&& 0xfff) ∧
      (off % 4096 = 0 ↔ p_offset state_segment.mem 0x1000 % 4096 =
        p_vaddr state_segment.mem 0x1000 % 4096) :=
  elf_map_segment_offset host_example 3 0x1000 state_segment (by decide)

/-! ## C18 -/

/-- Claim C18: when both passes of `relocate_data` receive the same size `s < 2^31`, with
`n = s / 24`, the first pass handles the table entries of indices `0 .. n-1` in that order, the
second pass the entries of indices `n .. 2n-1` in that order; the `2n` entries are distinct,
so none is handled twice and `2n` entries are handled in total. -/
theorem relocate_data_two_passes (h : Host) (binary : elf_t) (st : State) (s : Nat)
    (hs : s < 2147483648) :
    handled_entries (relocate_data h binary (s : Int) false st).log =
      handled_entries st.log ++
        (List.range (s / 24)).map (fun k => padd binary.relocations (24 * k)) ∧
    handled_entries
        (relocate_data h binary (s : Int) true (relocate_data h binary (s : Int) false st)).log =
      handled_entries (relocate_data h binary (s : Int) false st).log ++
        (List.range' (s / 24) (s / 24)).map (fun k => padd binary.relocations (24 * k)) ∧
    handled_entries
        (relocate_data h binary (s : Int) true (relocate_data h binary (s : Int) false st)).log =
      handled_entries st.log ++
        (List.range (2 * (s / 24))).map (fun k => padd binary.relocations (24 * k)) ∧
    ((List.range (2 * (s / 24))).map (fun k => padd binary.relocations (24 * k))).Nodup ∧
    ((List.range (2 * (s / 24))).map (fun k => padd binary.relocations (24 * k))).length =
      2 * (s / 24) := by
  have h1 : handled_entries (relocate_data h binary (s : Int) false st).log =
      handled_entries st.log ++
        (List.range (s / 24)).map (fun k => padd binary.relocations (24 * k)) := by
    rw [handled_entries_relocate_data h binary s hs]
    simp
  have h2 : handled_entries
        (relocate_data h binary (s : Int) true (relocate_data h binary (s : Int) false st)).log =
      handled_entries (relocate_data h binary (s : Int) false st).log ++
        (List.range' (s / 24) (s / 24)).map (fun k => padd binary.relocations (24 * k)) := by
    rw [handled_entries_relocate_data h binary s hs]
    congr 1
    rw [List.range'_eq_map_range, List.map_map]
    rfl
  refine ⟨h1, h2, ?_, ?_, by simp⟩
  · rw [h2, h1, List.append_assoc, ← List.map_append]
    congr 2
    rw [two_mul, List.range_add, List.range'_eq_map_range]
  · apply List.Nodup.map_on _ (List.nodup_range _)
    intro x hx y hy hxy
    rw [List.mem_range] at hx hy
    have hn : s / 24 < 100000000 := by omega
    exact padd_inj binary.relocations x y (by unfold U64; omega) (by unfold U64; omega) hxy

theorem relocate_data_two_passes_witness :
    handled_entries
        (relocate_data host_example binary_example 48 true
          (relocate_data host_example binary_example 48 false state_loaded)).log =
      [0x10000400, 0x10000418, 0x10000430, 0x10000448] := by
  have h := (relocate_data_two_passes host_example binary_example state_loaded 48
    (by decide)).2.2.1
  rw [show ((48 : Nat) : Int) = 48 from rfl] at h
  rw [h]
  decide

/-! ## C19 -/

/-- Claim C19, as stated for any two images, fails: in the file `file_overlap` the program
header table starts at offset 4, so the `p_type` of its only header is read from the bytes
starting at `e_ident[EI_CLASS]`; with ELFCLASS64 there the header is a PT_DYNAMIC one and the
file is accepted, with ELFCLASS32 (the only byte changed) no PT_DYNAMIC header exists and the
file is rejected. -/
theorem parse_elf_class_byte_decides :
    ¬ (∀ (h : Host) (f : Nat → Nat) (st : State),
        (∀ k, k ∉ ident_offsets → f k = h.file k) →
        (parse_elf h st).1.isSome = (parse_elf { h with file := f } st).1.isSome) := by
  intro hall
  have hc := hall host_overlap (mem_of ((4, 1) :: file_overlap)) state_empty (by
    intro k hk
    have h4 : (k == 4) = false := by
      simp only [ident_offsets, List.mem_cons, List.mem_singleton, List.not_mem_nil, or_false,
        not_or] at hk
      simpa using hk.1
    show mem_of ((4, 1) :: file_overlap) k = mem_of file_overlap k
    simp only [mem_of, List.lookup_cons, h4])
  revert hc
  decide

/-- Claim C19 (amended): for two file images that differ only in `e_ident[EI_CLASS]`,
`e_ident[EI_DATA]`, `e_ident[EI_VERSION]`, `e_type` or `e_machine`, and such that in one of them
no `p_type`, `p_offset` or `p_memsz` field of the `e_phnum` program headers and no `d_tag` of
the dynamic array of a PT_DYNAMIC header shares a byte with those fields, `parse_elf` accepts
both or rejects both. -/
theorem parse_elf_ident_independent (h : Host) (f : Nat → Nat) (st : State)
    (hf : ∀ k, k ∉ ident_offsets → f k = h.file k)
    (hclear : reads_off_ident (map_file h (st.emit (Event.opened h.open_ret))).2.mem
      (map_file h (st.emit (Event.opened h.open_ret))).1) :
    (parse_elf h st).1.isSome = (parse_elf { h with file := f } st).1.isSome := by
  obtain ⟨himg, hag⟩ := map_file_agree h f (st.emit (Event.opened h.open_ret)) hf
  obtain ⟨a0, a1, a2, a3, a4⟩ := reads_agree _ _ _ hag hclear
  have hiff := spec_parse_ok_iff _ _ _ a0 a1 a2 a3 a4
  have hsz : return_elf_size { h with file := f } = return_elf_size h := rfl
  unfold parse_elf
  simp only [hsz]
  split
  · rfl
  · split
    · rfl
    · split
      · rfl
      · rw [himg]
        split
        · rfl
        · rw [Bool.eq_iff_iff, parse_elf_image_isSome, parse_elf_image_isSome]
          exact hiff

theorem parse_elf_ident_independent_witness :
    (parse_elf host_example state_empty).1.isSome = true ∧
    (parse_elf host_example_class32 state_empty).1.isSome = true := by
  have hw := parse_elf_ident_independent host_example (mem_of ((4, 1) :: file_example))
    state_empty
    (by
      intro k hk
      have h4 : (k == 4) = false := by
        simp only [ident_offsets, List.mem_cons, List.mem_singleton, List.not_mem_nil, or_false,
          not_or] at hk
        simpa using hk.1
      show mem_of ((4, 1) :: file_example) k = mem_of file_example k
      simp only [mem_of, List.lookup_cons, h4])
    (by unfold reads_off_ident off_ident; decide)
  have h1 : (parse_elf host_example state_empty).1.isSome = true := by decide
  exact ⟨h1, hw ▸ h1⟩

end Eldr
